import Mathlib

/-!
Verification of the reverse-mode automatic-differentiation engine in
`GradTensor.py` (class `GradTensor`, the operation library `_neg`, `_add`,
`_mul`, `_matmul`, `tensor_sum`, and the recursive `backward` traversal).

The embedding models the Python object graph as a heap: a list of tensor
objects addressed by their position, mirroring Python references.  Numeric
values are integers (the gradient claims are exact structural identities, so
the carrier of the array entries is irrelevant).  The numpy array layer that
the code delegates to is modelled by `NDArray` together with numpy's
broadcasting rule for elementwise operations and the 2-d matrix product
(the only rank the operations of this repository apply `@` to).
-/

/-- Model of a numpy `ndarray`: a shape together with the row-major flat
data.  `np.zeros_like` / `np.ones_like` keep the shape and replace the
entries. -/
structure NDArray where
  shape : List Nat
  data : List Int
deriving DecidableEq

/-- `np.zeros_like`. -/
def zerosLike (a : NDArray) : NDArray :=
  ⟨a.shape, List.replicate a.data.length 0⟩

/-- `np.ones_like`. -/
def onesLike (a : NDArray) : NDArray :=
  ⟨a.shape, List.replicate a.data.length 1⟩

/-- Elementwise negation (`-x` on an ndarray never fails). -/
def negArr (a : NDArray) : NDArray :=
  ⟨a.shape, a.data.map (fun x => -x)⟩

/-- Integer addition, named so the elementwise lemmas match syntactically. -/
def addI (x y : Int) : Int := x + y

/-- Integer multiplication, named for the same reason. -/
def mulI (x y : Int) : Int := x * y

/-- numpy broadcasting of two shapes, processed from the trailing axis
(inputs are the reversed shapes): dimensions are compatible when equal or
when one of them is 1. -/
def bcastRev : List Nat → List Nat → Option (List Nat)
  | [], s2 => some s2
  | a :: s1, [] => some (a :: s1)
  | a :: s1, b :: s2 =>
    match bcastRev s1 s2 with
    | none => none
    | some s =>
      if a = b then some (a :: s)
      else if a = 1 then some (b :: s)
      else if b = 1 then some (a :: s)
      else none

/-- numpy broadcasting of two shapes, aligned from the right. -/
def broadcastShapes (s1 s2 : List Nat) : Option (List Nat) :=
  (bcastRev s1.reverse s2.reverse).map List.reverse

/-- Row-major flat offset of a multi-index. -/
def flatIndex : List Nat → List Nat → Nat
  | [], _ => 0
  | _ :: _, [] => 0
  | _ :: s, i :: idx => i * s.prod + flatIndex s idx

/-- All multi-indices of a shape, in row-major order. -/
def allIndices : List Nat → List (List Nat)
  | [] => [[]]
  | n :: s => (List.range n).flatMap (fun i => (allIndices s).map (fun idx => i :: idx))

/-- Broadcast-aware element access: the full-rank result index is aligned to
the (possibly lower-rank) operand from the right, and axes of extent 1 are
pinned to index 0, exactly as numpy strides them. -/
def bget (a : NDArray) (idx : List Nat) : Int :=
  let idx1 := idx.drop (idx.length - a.shape.length)
  let idx2 := List.zipWith (fun n i => if n = 1 then 0 else i) a.shape idx1
  a.data.getD (flatIndex a.shape idx2) 0

/-- An elementwise numpy binary operation with broadcasting.  The two common
stride layouts (identical shapes, and a 0-d scalar operand) are written
directly; the general case enumerates the broadcast result shape.  `none`
models the `ValueError` numpy raises when the shapes do not broadcast. -/
def ewise (f : Int → Int → Int) (a b : NDArray) : Option NDArray :=
  if a.shape = b.shape then some ⟨a.shape, List.zipWith f a.data b.data⟩
  else if a.shape = [] then some ⟨b.shape, b.data.map (f (a.data.getD 0 0))⟩
  else if b.shape = [] then some ⟨a.shape, a.data.map (fun x => f x (b.data.getD 0 0))⟩
  else
    match broadcastShapes a.shape b.shape with
    | none => none
    | some s => some ⟨s, (allIndices s).map (fun idx => f (bget a idx) (bget b idx))⟩

/-- numpy `@` on two matrices: defined when both operands are 2-d with
matching inner dimension, `none` models the raised `ValueError` otherwise.
(2-d is the only rank this repository ever passes to `@`; the model leaves
the other numpy ranks out of scope.) -/
def matmul (a b : NDArray) : Option NDArray :=
  match a.shape, b.shape with
  | [m, k], [k2, n] =>
    if k = k2 then
      some ⟨[m, n], (List.range m).flatMap (fun i =>
        (List.range n).map (fun j =>
          (List.range k).foldl
            (fun acc t => acc + a.data.getD (i * k + t) 0 * b.data.getD (t * n + j) 0) 0))⟩
    else none
  | _, _ => none

/-- numpy `.T` (axis reversal) for the ranks this repository uses: 2-d
matrices are transposed; 0-d and 1-d arrays are unchanged (numpy semantics).
Higher ranks never reach `.T` here. -/
def transpose (a : NDArray) : NDArray :=
  match a.shape with
  | [m, n] => ⟨[n, m], (List.range n).flatMap (fun j =>
      (List.range m).map (fun i => a.data.getD (i * n + j) 0))⟩
  | _ => a

/-- `ndarray.sum()`: full reduction to a 0-d array. -/
def sumArr (a : NDArray) : NDArray :=
  ⟨[], [a.data.sum]⟩

/-- The `op` field of a `Dependency` (used by the code for repr only). -/
inductive OpTag
  | negOp
  | addOp
  | mulOp
  | matmulOp
  | sumOp
deriving DecidableEq

/-- The closures installed as `grad_fn` by the operation library.  Each
constructor records the Python lambda's captured variable as a heap address,
because the lambdas read `input.data` at call time, not at capture time:
* `idFn`      : `_add`'s `lambda grad: grad`
* `negFn`     : `_neg`'s `lambda grad: -grad`
* `mulFn b`   : `_mul`'s `lambda grad: grad * input2.data` (capturing `input2`);
  note the code builds this one lambda and attaches it to both edges
* `matGradL b`: `_matmul`'s `lambda grad: GradTensor(grad.data @ input2.data.T)`
* `matGradR a`: `_matmul`'s `lambda grad: GradTensor(input1.data.T @ grad.data)`
* `sumFn x`   : `tensor_sum`'s `lambda grad: GradTensor(np.ones_like(input.data)) * grad` -/
inductive GFn
  | idFn
  | negFn
  | mulFn (other : Nat)
  | matGradL (other : Nat)
  | matGradR (other : Nat)
  | sumFn (inp : Nat)
deriving DecidableEq

/-- The `Dependency` NamedTuple: producing op, the upstream tensor, and the
local-gradient closure.  (The operation library always supplies a `grad_fn`,
so the Python `Optional` default is never exercised and the field is total
here.) -/
structure Dep where
  op : OpTag
  inputs : Nat
  gradFn : GFn
deriving DecidableEq

/-- One `GradTensor` object: `self.data` (already copied by `np.array`),
`self.requires_grad`, `self.grad` (a reference to another tensor object or
`None`), and `self.depends_on`. -/
structure Obj where
  data : NDArray
  requires_grad : Bool
  grad : Option Nat
  depends_on : Option (List Dep)
deriving DecidableEq

/-- The Python object heap: tensor objects addressed by position.  New
objects are appended, so addresses of existing objects are stable. -/
abbrev Heap := List Obj

/-- `GradTensor.__init__(data, requires_grad, depends_on)`: stores the data
(`np.array` copies, so value semantics are exact), sets `grad` to `None`,
stores `depends_on`, and — when `requires_grad` — calls `zero_grad`, which
allocates a fresh all-zeros tensor and installs it as `grad`.  Returns the
extended heap and the new object's address. -/
def newT (h : Heap) (d : NDArray) (rg : Bool) (deps : Option (List Dep)) : Heap × Nat :=
  let a := h.length
  let h1 := h ++ [⟨d, rg, none, deps⟩]
  if rg then
    let g := h1.length
    ((h1 ++ [⟨zerosLike d, false, none, none⟩]).set a ⟨d, rg, some g, deps⟩, a)
  else
    (h1, a)

/-- `GradTensor.zero_grad`: asserts `requires_grad` (the `false` flag models
the raised `AssertionError`, with the heap untouched), then replaces `grad`
with a freshly constructed zero tensor of the same shape. -/
def zeroGrad (h : Heap) (a : Nat) : Heap × Bool :=
  match h[a]? with
  | none => (h, false)
  | some o =>
    if o.requires_grad then
      let g := h.length
      ((h ++ [(⟨zerosLike o.data, false, none, none⟩ : Obj)]).set a
        { o with grad := some g }, true)
    else (h, false)

/-- `_neg`: forward is elementwise negation; one dependency edge with
`lambda grad: -grad` when the input requires grad. -/
def applyNeg (h : Heap) (a : Nat) : Heap × Option Nat :=
  match h[a]? with
  | none => (h, none)
  | some o =>
    let d := negArr o.data
    if o.requires_grad then
      let r := newT h d true (some [⟨OpTag.negOp, a, GFn.negFn⟩])
      (r.1, some r.2)
    else
      let r := newT h d false none
      (r.1, some r.2)

/-- `_add`: the forward sum is computed first (a numpy broadcast failure
raises before any tensor or dependency is constructed), the result's
`requires_grad` is the OR of the operands', and one identity edge is wired
per operand that requires grad, first operand first. -/
def applyAdd (h : Heap) (a b : Nat) : Heap × Option Nat :=
  match h[a]?, h[b]? with
  | some oa, some ob =>
    match ewise addI oa.data ob.data with
    | none => (h, none)
    | some d =>
      let rg := oa.requires_grad || ob.requires_grad
      if rg then
        let deps : List Dep :=
          (if oa.requires_grad then [⟨OpTag.addOp, a, GFn.idFn⟩] else []) ++
          (if ob.requires_grad then [⟨OpTag.addOp, b, GFn.idFn⟩] else [])
        let r := newT h d rg (some deps)
        (r.1, some r.2)
      else
        let r := newT h d rg none
        (r.1, some r.2)
  | _, _ => (h, none)

/-- `_mul`: elementwise product, then the code builds a single
`grad_fn = lambda grad: grad * input2.data` (capturing `input2`) and
attaches that same closure to the edge for `input1` and to the edge for
`input2`. -/
def applyMul (h : Heap) (a b : Nat) : Heap × Option Nat :=
  match h[a]?, h[b]? with
  | some oa, some ob =>
    match ewise mulI oa.data ob.data with
    | none => (h, none)
    | some d =>
      let rg := oa.requires_grad || ob.requires_grad
      if rg then
        let deps : List Dep :=
          (if oa.requires_grad then [⟨OpTag.mulOp, a, GFn.mulFn b⟩] else []) ++
          (if ob.requires_grad then [⟨OpTag.mulOp, b, GFn.mulFn b⟩] else [])
        let r := newT h d rg (some deps)
        (r.1, some r.2)
      else
        let r := newT h d rg none
        (r.1, some r.2)
  | _, _ => (h, none)

/-- `_matmul`: matrix product (an inner-dimension mismatch raises before any
construction), with the two distinct transpose-rule lambdas, one per operand
that requires grad. -/
def applyMatmul (h : Heap) (a b : Nat) : Heap × Option Nat :=
  match h[a]?, h[b]? with
  | some oa, some ob =>
    match matmul oa.data ob.data with
    | none => (h, none)
    | some d =>
      let rg := oa.requires_grad || ob.requires_grad
      if rg then
        let deps : List Dep :=
          (if oa.requires_grad then [⟨OpTag.matmulOp, a, GFn.matGradL b⟩] else []) ++
          (if ob.requires_grad then [⟨OpTag.matmulOp, b, GFn.matGradR a⟩] else [])
        let r := newT h d rg (some deps)
        (r.1, some r.2)
      else
        let r := newT h d rg none
        (r.1, some r.2)
  | _, _ => (h, none)

/-- `tensor_sum`: full reduction to a 0-d array, with one edge carrying the
`ones_like`-broadcast lambda when the input requires grad. -/
def tensorSum (h : Heap) (a : Nat) : Heap × Option Nat :=
  match h[a]? with
  | none => (h, none)
  | some o =>
    let d := sumArr o.data
    if o.requires_grad then
      let r := newT h d true (some [⟨OpTag.sumOp, a, GFn.sumFn a⟩])
      (r.1, some r.2)
    else
      let r := newT h d false none
      (r.1, some r.2)

/-- Calling a stored `grad_fn` on the gradient tensor at address `g`.
`none` models a raised exception with the heap at that point returned
unchanged by the call itself.

The `mulFn` case is unconditionally an error: the lambda evaluates
`grad * input2.data`, which calls `_mul(grad, input2.data)` with a raw
ndarray in the `input2` position, and `_mul` then evaluates
`input2.requires_grad` — an attribute no ndarray has — so every invocation
raises `AttributeError` before returning (both when the short-circuit `or`
reaches it on line 138 and, otherwise, on the `if input2.requires_grad`
test on line 151). -/
def applyGradFn (h : Heap) (fn : GFn) (g : Nat) : Heap × Option Nat :=
  match fn with
  | GFn.idFn => (h, some g)
  | GFn.negFn => applyNeg h g
  | GFn.mulFn _ => (h, none)
  | GFn.matGradL b =>
    match h[g]?, h[b]? with
    | some og, some ob =>
      match matmul og.data (transpose ob.data) with
      | none => (h, none)
      | some d =>
        let r := newT h d false none
        (r.1, some r.2)
    | _, _ => (h, none)
  | GFn.matGradR a =>
    match h[g]?, h[a]? with
    | some og, some oa =>
      match matmul (transpose oa.data) og.data with
      | none => (h, none)
      | some d =>
        let r := newT h d false none
        (r.1, some r.2)
    | _, _ => (h, none)
  | GFn.sumFn inp =>
    match h[inp]? with
    | none => (h, none)
    | some oi =>
      let r := newT h (onesLike oi.data) false none
      applyMul r.1 r.2 g

/-- One iteration of `backward`'s dependency loop: when no exception has
occurred yet (flag `true`), compute `backward_grad = dep.grad_fn(grad)` and
recurse into `dep.inputs`; once an exception was raised (flag `false`) the
loop is over and the state passes through. -/
def depStep (bk : Heap → Nat → Option Nat → Heap × Bool) (g : Nat)
    (st : Heap × Bool) (dep : Dep) : Heap × Bool :=
  if st.2 then
    let r := applyGradFn st.1 dep.gradFn g
    match r.2 with
    | none => (r.1, false)
    | some bg => bk r.1 dep.inputs (some bg)
  else st

/-- The loop of `backward`: for each dependency in order, compute
`backward_grad = dep.grad_fn(grad)` and recurse into `dep.inputs`.  A raised
exception (flag `false`) stops the loop with all mutations so far kept,
exactly as Python exception propagation does. -/
def runDeps (bk : Heap → Nat → Option Nat → Heap × Bool)
    (h : Heap) (deps : List Dep) (g : Nat) : Heap × Bool :=
  deps.foldl (depStep bk g) (h, true)

/-- `GradTensor.backward(grad)`: asserts `requires_grad`; defaults the seed
to a fresh all-ones tensor; accumulates via `self.grad += grad` (which is
`self.grad = _add(self.grad, grad)`, a fresh tensor, never an overwrite);
then walks the dependency edges.  The `Nat` fuel bounds the recursion depth
(Python would raise `RecursionError`); the `Bool` is `false` when the call
raised, with the heap reflecting all mutations made before the raise. -/
def backward : Nat → Heap → Nat → Option Nat → Heap × Bool
  | 0, h, _, _ => (h, false)
  | Nat.succ fuel, h, a, gOpt =>
    match h[a]? with
    | none => (h, false)
    | some o =>
      if o.requires_grad then
        let hg : Heap × Nat :=
          match gOpt with
          | some g => (h, g)
          | none => newT h (onesLike o.data) false none
        match o.grad with
        | none => (hg.1, false)
        | some sg =>
          let r := applyAdd hg.1 sg hg.2
          match r.2 with
          | none => (r.1, false)
          | some ng =>
            let h3 := r.1.set a { o with grad := some ng }
            match o.depends_on with
            | none => (h3, true)
            | some deps => runDeps (backward fuel) h3 deps hg.2
      else (h, false)

/-- The gradient buffer currently held by the tensor at `a`. -/
def gradData (h : Heap) (a : Nat) : Option NDArray :=
  match h[a]? with
  | none => none
  | some o =>
    match o.grad with
    | none => none
    | some g =>
      match h[g]? with
      | none => none
      | some og => some og.data

/-! ### Basic heap lemmas -/

theorem getElem?_some_lt {α : Type} {l : List α} {n : Nat} {x : α}
    (h : l[n]? = some x) : n < l.length := by
  by_contra hc
  rw [List.getElem?_eq_none (by omega)] at h
  exact Option.noConfusion h

@[simp]
theorem newT_snd (h : Heap) (d : NDArray) (rg : Bool) (deps : Option (List Dep)) :
    (newT h d rg deps).2 = h.length := by
  unfold newT
  cases rg <;> simp

@[simp]
theorem newT_length (h : Heap) (d : NDArray) (rg : Bool) (deps : Option (List Dep)) :
    (newT h d rg deps).1.length = h.length + (if rg then 2 else 1) := by
  unfold newT
  cases rg <;> simp

theorem newT_get_self (h : Heap) (d : NDArray) (rg : Bool) (deps : Option (List Dep)) :
    (newT h d rg deps).1[h.length]? =
      some ⟨d, rg, if rg then some (h.length + 1) else none, deps⟩ := by
  unfold newT
  cases rg
  · simp
  · simp only [if_pos]
    rw [List.getElem?_set_eq_of_lt] <;> simp

theorem newT_getElem_self (h : Heap) (d : NDArray) (rg : Bool) (deps : Option (List Dep))
    (hlt : h.length < (newT h d rg deps).1.length) :
    (newT h d rg deps).1[h.length] =
      ⟨d, rg, if rg then some (h.length + 1) else none, deps⟩ := by
  have h1 := newT_get_self h d rg deps
  rw [List.getElem?_eq_getElem hlt] at h1
  exact Option.some.inj h1

theorem newT_get_old (h : Heap) (d : NDArray) (rg : Bool) (deps : Option (List Dep))
    (p : Nat) (hp : p < h.length) : (newT h d rg deps).1[p]? = h[p]? := by
  unfold newT
  cases rg
  · simp [List.getElem?_append_left hp]
  · simp only [if_pos]
    rw [List.getElem?_set_ne (by omega), List.getElem?_append_left (by simp; omega),
      List.getElem?_append_left hp]

theorem newT_grad_obj (h : Heap) (d : NDArray) (deps : Option (List Dep)) :
    (newT h d true deps).1[h.length + 1]? =
      some ⟨zerosLike d, false, none, none⟩ := by
  unfold newT
  simp only [if_pos]
  rw [List.getElem?_set_ne (by omega)]
  have : h.length + 1 = (h ++ [(⟨d, true, none, deps⟩ : Obj)]).length := by simp
  rw [this, List.getElem?_concat_length]

/-! ### Broadcasting lemmas -/

theorem bcastRev_nil_right (r : List Nat) : bcastRev r [] = some r := by
  cases r <;> rfl

theorem bcastRev_self (s : List Nat) : bcastRev s s = some s := by
  induction s with
  | nil => rfl
  | cons a s ih => simp [bcastRev, ih]

theorem broadcastShapes_self (s : List Nat) : broadcastShapes s s = some s := by
  simp [broadcastShapes, bcastRev_self]

theorem broadcastShapes_nil_left (s : List Nat) : broadcastShapes [] s = some s := by
  simp [broadcastShapes, bcastRev]

theorem broadcastShapes_nil_right (s : List Nat) : broadcastShapes s [] = some s := by
  simp [broadcastShapes, bcastRev_nil_right]

/-! ### Per-claim theorems: constructor, invalid-state errors, edge wiring -/

/-- C9: a tensor constructed directly through the constructor (rather than
returned by an operation) carries no dependency edges — `depends_on` is the
`None` placeholder, i.e. the empty dependency list — whichever value
`requires_grad` has. -/
theorem constructed_tensor_is_leaf (h : Heap) (d : NDArray) (rg : Bool) :
    ∃ o, (newT h d rg none).1[(newT h d rg none).2]? = some o ∧
      o.depends_on = none ∧ o.data = d ∧ o.requires_grad = rg := by
  rw [newT_snd, newT_get_self]
  exact ⟨_, rfl, rfl, rfl, rfl⟩

/-- C7: `zero_grad()` and `backward()` on a tensor whose `requires_grad` is
false fail at the opening assertion, with the heap — this tensor and every
other one — exactly as it was. -/
theorem invalid_state_fails_without_effect (h : Heap) (a : Nat) (o : Obj)
    (fuel : Nat) (g : Option Nat)
    (ho : h[a]? = some o) (hrg : o.requires_grad = false) :
    zeroGrad h a = (h, false) ∧ backward fuel h a g = (h, false) := by
  constructor
  · unfold zeroGrad
    rw [ho]
    simp [hrg]
  · cases fuel with
    | zero => rfl
    | succ fuel =>
      unfold backward
      rw [ho]
      simp [hrg]

/-- The shape shared by the five operations' outputs: the returned address
holds an object whose `requires_grad` is the OR of the operands', whose
dependency edges point at exactly the operands that require gradients (in
operand order, carrying the producing op's tag), and which has neither
dependencies nor a grad slot when no operand requires gradients. -/
def edgeOk (r : Heap × Option Nat) (tag : OpTag) (ins : List Nat) (rg : Bool) : Prop :=
  ∃ out o, r.2 = some out ∧ r.1[out]? = some o ∧
    o.requires_grad = rg ∧
    (o.depends_on.getD []).map Dep.inputs = ins ∧
    (o.depends_on.getD []).map Dep.op = List.replicate ins.length tag ∧
    (rg = false → o.depends_on = none ∧ o.grad = none) ∧
    (rg = true → o.grad = some ((r.1.length) - 1))

/-- C6: for negate, add, multiply, matmul and sum, whenever the operation
produces an output (negate and sum always do; each binary op's forward
computation succeeding is that op's own, individual condition), the output's
`requires_grad` is the OR of the operands' flags, there is exactly one
dependency edge per operand that requires gradients and none for the others,
and an output requiring no gradients carries no dependencies and no grad
slot. -/
theorem ops_requires_grad_or_and_edge_count (h : Heap) (a b : Nat) (oa ob : Obj)
    (ha : h[a]? = some oa) (hb : h[b]? = some ob) :
    edgeOk (applyNeg h a) OpTag.negOp
      (if oa.requires_grad then [a] else []) oa.requires_grad ∧
    (∀ d1 : NDArray, ewise addI oa.data ob.data = some d1 →
      edgeOk (applyAdd h a b) OpTag.addOp
        ((if oa.requires_grad then [a] else []) ++
          (if ob.requires_grad then [b] else []))
        (oa.requires_grad || ob.requires_grad)) ∧
    (∀ d2 : NDArray, ewise mulI oa.data ob.data = some d2 →
      edgeOk (applyMul h a b) OpTag.mulOp
        ((if oa.requires_grad then [a] else []) ++
          (if ob.requires_grad then [b] else []))
        (oa.requires_grad || ob.requires_grad)) ∧
    (∀ d3 : NDArray, matmul oa.data ob.data = some d3 →
      edgeOk (applyMatmul h a b) OpTag.matmulOp
        ((if oa.requires_grad then [a] else []) ++
          (if ob.requires_grad then [b] else []))
        (oa.requires_grad || ob.requires_grad)) ∧
    edgeOk (tensorSum h a) OpTag.sumOp
      (if oa.requires_grad then [a] else []) oa.requires_grad := by
  refine ⟨?_, ?_, ?_, ?_, ?_⟩
  · unfold edgeOk
    cases hra : oa.requires_grad <;>
      simp [applyNeg, ha, hra, newT_get_self, newT_getElem_self, newT_length]
  · intro d1 hadd
    unfold edgeOk
    cases hra : oa.requires_grad <;> cases hrb : ob.requires_grad <;>
      simp [applyAdd, ha, hb, hadd, hra, hrb, newT_get_self, newT_getElem_self, newT_length]
  · intro d2 hmul
    unfold edgeOk
    cases hra : oa.requires_grad <;> cases hrb : ob.requires_grad <;>
      simp [applyMul, ha, hb, hmul, hra, hrb, newT_get_self, newT_getElem_self, newT_length]
  · intro d3 hmm
    unfold edgeOk
    cases hra : oa.requires_grad <;> cases hrb : ob.requires_grad <;>
      simp [applyMatmul, ha, hb, hmm, hra, hrb, newT_get_self, newT_getElem_self, newT_length]
  · unfold edgeOk
    cases hra : oa.requires_grad <;>
      simp [tensorSum, ha, hra, newT_get_self, newT_getElem_self, newT_length]

/-- Witness for C6 at a concrete heap of 1-d tensors, shape (2,), for which
matmul is undefined: negate, sum, and the successful add and multiply are
exercised, with the first operand requiring gradients and the second not. -/
theorem ops_requires_grad_or_and_edge_count_witness :
    edgeOk (applyNeg [(⟨⟨[2], [1, 2]⟩, true, some 1, none⟩ : Obj),
        ⟨⟨[2], [0, 0]⟩, false, none, none⟩,
        ⟨⟨[2], [3, 4]⟩, false, none, none⟩] 0)
      OpTag.negOp [0] true ∧
    edgeOk (applyAdd [(⟨⟨[2], [1, 2]⟩, true, some 1, none⟩ : Obj),
        ⟨⟨[2], [0, 0]⟩, false, none, none⟩,
        ⟨⟨[2], [3, 4]⟩, false, none, none⟩] 0 2)
      OpTag.addOp [0] true ∧
    edgeOk (applyMul [(⟨⟨[2], [1, 2]⟩, true, some 1, none⟩ : Obj),
        ⟨⟨[2], [0, 0]⟩, false, none, none⟩,
        ⟨⟨[2], [3, 4]⟩, false, none, none⟩] 0 2)
      OpTag.mulOp [0] true ∧
    edgeOk (tensorSum [(⟨⟨[2], [1, 2]⟩, true, some 1, none⟩ : Obj),
        ⟨⟨[2], [0, 0]⟩, false, none, none⟩,
        ⟨⟨[2], [3, 4]⟩, false, none, none⟩] 0)
      OpTag.sumOp [0] true := by
  have hmain := ops_requires_grad_or_and_edge_count
    [(⟨⟨[2], [1, 2]⟩, true, some 1, none⟩ : Obj),
     ⟨⟨[2], [0, 0]⟩, false, none, none⟩,
     ⟨⟨[2], [3, 4]⟩, false, none, none⟩] 0 2
    ⟨⟨[2], [1, 2]⟩, true, some 1, none⟩ ⟨⟨[2], [3, 4]⟩, false, none, none⟩
    (by rfl) (by rfl)
  exact ⟨hmain.1, hmain.2.1 ⟨[2], [4, 6]⟩ (by decide),
    hmain.2.2.1 ⟨[2], [3, 8]⟩ (by decide), hmain.2.2.2.2⟩

/-- Witness for C7: a concrete non-differentiable tensor is left untouched by
both failing calls. -/
theorem invalid_state_fails_without_effect_witness :
    zeroGrad [⟨⟨[1], [4]⟩, false, none, none⟩] 0 =
      ([⟨⟨[1], [4]⟩, false, none, none⟩], false) ∧
    backward 5 [⟨⟨[1], [4]⟩, false, none, none⟩] 0 none =
      ([⟨⟨[1], [4]⟩, false, none, none⟩], false) :=
  invalid_state_fails_without_effect [⟨⟨[1], [4]⟩, false, none, none⟩] 0
    ⟨⟨[1], [4]⟩, false, none, none⟩ 5 none rfl rfl

/-! ### C1: the multiply gradient rule -/

/-- C1 (code bug): with `a = GradTensor([2], requires_grad=True)` at address
0 and `b = GradTensor([3], requires_grad=True)` at address 2, `multiply(a, b)`
attaches to BOTH dependency edges the single closure
`lambda grad: grad * input2.data` capturing `b` (`GFn.mulFn 2`): the edge for
operand `b` holds `g ↦ g ⊙ b.buffer`, not the claimed `g ↦ g ⊙ a.buffer`.
Moreover invoking that closure raises (`_mul` receives a raw ndarray and
reads `input2.requires_grad` off it), so `backward` through the product
fails after accumulating only into the output's own grad slot, and `a.grad`
keeps its initial zeros instead of the claimed `g ⊙ b.buffer = [3]`. -/
theorem mul_attaches_shared_gradfn_for_both_operands :
    (((applyMul (newT (newT [] ⟨[1], [2]⟩ true none).1 ⟨[1], [3]⟩ true
        none).1 0 2).1[4]?).map Obj.depends_on) =
      some (some [⟨OpTag.mulOp, 0, GFn.mulFn 2⟩, ⟨OpTag.mulOp, 2, GFn.mulFn 2⟩]) ∧
    (applyGradFn (applyMul (newT (newT [] ⟨[1], [2]⟩ true none).1 ⟨[1], [3]⟩ true
        none).1 0 2).1 (GFn.mulFn 2) 5).2 = none ∧
    (backward 2 (applyMul (newT (newT [] ⟨[1], [2]⟩ true none).1 ⟨[1], [3]⟩ true
        none).1 0 2).1 4 none).2 = false ∧
    gradData (backward 2 (applyMul (newT (newT [] ⟨[1], [2]⟩ true none).1
        ⟨[1], [3]⟩ true none).1 0 2).1 4 none).1 0 = some ⟨[1], [0]⟩ := by
  refine ⟨?_, rfl, ?_, ?_⟩ <;> decide

/-! ### C2: shape handling of the elementwise ops and matmul -/

/-- Counterexample to C2 as stated: `a` of shape (1,) and `b` of shape (2,)
have non-identical buffer shapes, yet `add(a, b)` does not fail — numpy
broadcasts — and an output tensor with buffer `[6, 7]` is constructed; the
same holds for `multiply`. -/
theorem add_mul_nonidentical_shapes_construct_output :
    ((⟨[1], [5]⟩ : NDArray).shape ≠ (⟨[2], [1, 2]⟩ : NDArray).shape) ∧
    (applyAdd (newT (newT [] ⟨[1], [5]⟩ false none).1 ⟨[2], [1, 2]⟩ false
        none).1 0 1).2 = some 2 ∧
    ((applyAdd (newT (newT [] ⟨[1], [5]⟩ false none).1 ⟨[2], [1, 2]⟩ false
        none).1 0 1).1[2]?).map Obj.data = some ⟨[2], [6, 7]⟩ ∧
    (applyMul (newT (newT [] ⟨[1], [5]⟩ false none).1 ⟨[2], [1, 2]⟩ false
        none).1 0 1).2 = some 2 ∧
    ((applyMul (newT (newT [] ⟨[1], [5]⟩ false none).1 ⟨[2], [1, 2]⟩ false
        none).1 0 1).1[2]?).map Obj.data = some ⟨[2], [5, 10]⟩ := by
  refine ⟨?_, ?_, ?_, ?_, ?_⟩ <;> decide

/-- C2 (amended): `add`/`multiply` fail — with no output tensor and no
dependency edge constructed, the heap exactly as before — precisely when the
operand shapes do not broadcast (numpy's rule; identical shapes always
broadcast, so only non-identical, non-broadcastable shapes fail), and
`matmul` fails likewise on any inner-dimension mismatch of two matrices. -/
theorem shape_mismatch_rejection (h : Heap) (a b : Nat) (oa ob : Obj)
    (ha : h[a]? = some oa) (hb : h[b]? = some ob) :
    (broadcastShapes oa.data.shape ob.data.shape = none →
      applyAdd h a b = (h, none) ∧ applyMul h a b = (h, none)) ∧
    (∀ m k k2 n, oa.data.shape = [m, k] → ob.data.shape = [k2, n] → k ≠ k2 →
      applyMatmul h a b = (h, none)) := by
  constructor
  · intro hbc
    have hne : oa.data.shape ≠ ob.data.shape := by
      intro he
      rw [he, broadcastShapes_self] at hbc
      exact Option.noConfusion hbc
    have hna : oa.data.shape ≠ [] := by
      intro he
      rw [he, broadcastShapes_nil_left] at hbc
      exact Option.noConfusion hbc
    have hnb : ob.data.shape ≠ [] := by
      intro he
      rw [he, broadcastShapes_nil_right] at hbc
      exact Option.noConfusion hbc
    have hew : ∀ f, ewise f oa.data ob.data = none := by
      intro f
      unfold ewise
      rw [if_neg hne, if_neg hna, if_neg hnb, hbc]
    constructor
    · unfold applyAdd
      rw [ha, hb]
      simp [hew addI]
    · unfold applyMul
      rw [ha, hb]
      simp [hew mulI]
  · intro m k k2 n hsa hsb hk
    have hmm : matmul oa.data ob.data = none := by
      unfold matmul
      rw [hsa, hsb]
      simp [hk]
    unfold applyMatmul
    rw [ha, hb]
    simp [hmm]

/-- Witness for C2 (amended) at concrete shapes: (2,) with (3,) cannot
broadcast, and 2-by-2 with 3-by-2 matrices have mismatched inner
dimensions. -/
theorem shape_mismatch_rejection_witness :
    (applyAdd [⟨⟨[2], [1, 2]⟩, false, none, none⟩,
        ⟨⟨[3], [1, 2, 3]⟩, false, none, none⟩] 0 1 =
      ([⟨⟨[2], [1, 2]⟩, false, none, none⟩,
        ⟨⟨[3], [1, 2, 3]⟩, false, none, none⟩], none)) ∧
    (applyMatmul [⟨⟨[2, 2], [1, 2, 3, 4]⟩, false, none, none⟩,
        ⟨⟨[3, 2], [1, 2, 3, 4, 5, 6]⟩, false, none, none⟩] 0 1 =
      ([⟨⟨[2, 2], [1, 2, 3, 4]⟩, false, none, none⟩,
        ⟨⟨[3, 2], [1, 2, 3, 4, 5, 6]⟩, false, none, none⟩], none)) := by
  constructor
  · exact (shape_mismatch_rejection _ 0 1 _ _ rfl rfl).1 (by decide) |>.1
  · exact (shape_mismatch_rejection _ 0 1 _ _ rfl rfl).2 2 2 3 2 rfl rfl (by decide)

/-! ### Elementwise data lemmas -/

theorem zipWith_replicate_same (f : Int → Int → Int) (L : Nat) (u v : Int) :
    List.zipWith f (List.replicate L u) (List.replicate L v) =
      List.replicate L (f u v) := by
  induction L with
  | zero => rfl
  | succ L ih => simp [List.replicate_succ, ih]

theorem zipWith_addI_zeros (x : List Int) (L : Nat) (hx : x.length = L) :
    List.zipWith addI (List.replicate L 0) x = x := by
  induction x generalizing L with
  | nil => subst hx; rfl
  | cons a x ih =>
    subst hx
    simp only [List.length_cons, List.replicate_succ, List.zipWith_cons_cons]
    rw [ih _ rfl]
    simp [addI]

theorem backward_zero (h : Heap) (a : Nat) (gOpt : Option Nat) :
    backward 0 h a gOpt = (h, false) := rfl

/-- One-step unfolding of `backward`, stated so `simp` can apply it to
literal fuel values. -/
theorem backward_succ (fuel : Nat) (h : Heap) (a : Nat) (gOpt : Option Nat) :
    backward (fuel + 1) h a gOpt =
      match h[a]? with
      | none => (h, false)
      | some o =>
        if o.requires_grad then
          let hg : Heap × Nat :=
            match gOpt with
            | some g => (h, g)
            | none => newT h (onesLike o.data) false none
          match o.grad with
          | none => (hg.1, false)
          | some sg =>
            let r := applyAdd hg.1 sg hg.2
            match r.2 with
            | none => (r.1, false)
            | some ng =>
              let h3 := r.1.set a { o with grad := some ng }
              match o.depends_on with
              | none => (h3, true)
              | some deps => runDeps (backward fuel) h3 deps hg.2
        else (h, false) := rfl

/-! ### C4: gradient additivity under operand reuse -/

/-- The program of C4: a differentiable leaf `x`, then `L = sum(x + x)` with
`x` supplied as both operands, then `L.backward()`. -/
def reuseScenario (X : NDArray) : Heap × Bool :=
  let r1 := newT [] X true none
  let r2 := applyAdd r1.1 r1.2 r1.2
  match r2.2 with
  | none => (r2.1, false)
  | some y =>
    let r3 := tensorSum r2.1 y
    match r3.2 with
    | none => (r3.1, false)
    | some l => backward 3 r3.1 l none

set_option maxHeartbeats 2000000 in
/-- C4: after `L = sum(x + x)` and `L.backward()`, the tensor reused on both
edges accumulated both contributions: every element of `x.grad` is 2. -/
theorem reuse_accumulates_both_paths (s : List Nat) (d : List Int)
    (hw : d.length = s.prod) :
    (reuseScenario ⟨s, d⟩).2 = true ∧
    gradData (reuseScenario ⟨s, d⟩).1 0 = some ⟨s, List.replicate s.prod 2⟩ := by
  cases s with
  | nil =>
    simp only [List.prod_nil] at hw
    match d, hw with
    | [x], _ =>
      constructor <;>
        simp [reuseScenario, newT, applyAdd, tensorSum, backward_succ,
          backward_zero, runDeps, depStep, applyGradFn, applyMul, ewise, gradData,
          zerosLike, onesLike, sumArr, addI, mulI]
  | cons n s =>
    constructor <;>
      simp [reuseScenario, newT, applyAdd, tensorSum, backward_succ,
        backward_zero, runDeps, depStep, applyGradFn, applyMul, ewise, gradData,
        zerosLike, onesLike, sumArr, zipWith_replicate_same,
        zipWith_addI_zeros, hw, addI, mulI]

/-! ### C3: matmul gradient correctness through sum -/

theorem length_grid {α : Type} (m n : Nat) (f : Nat → Nat → α) :
    ((List.range m).flatMap (fun i => (List.range n).map (f i))).length = m * n := by
  induction m with
  | zero => simp
  | succ m ih =>
    rw [List.range_succ, List.flatMap_append]
    simp only [List.length_append, ih, List.flatMap_cons, List.flatMap_nil,
      List.append_nil, List.length_map, List.length_range, Nat.succ_mul]

theorem sum_length_grid {α : Type} (m n : Nat) (f : Nat → Nat → α) :
    (List.map (List.length ∘ fun i => List.map (f i) (List.range n))
      (List.range m)).sum = m * n := by
  induction m with
  | zero => simp
  | succ m ih =>
    rw [List.range_succ, List.map_append, List.sum_append]
    simp [ih, Function.comp, Nat.succ_mul]

/-- The program of C3: differentiable leaves `A` and `B`, then
`L = sum(A @ B)`, then `L.backward()`. -/
def matmulSumScenario (A B : NDArray) : Heap × Bool :=
  let r1 := newT [] A true none
  let r2 := newT r1.1 B true none
  let r3 := applyMatmul r2.1 r1.2 r2.2
  match r3.2 with
  | none => (r3.1, false)
  | some ab =>
    let r4 := tensorSum r3.1 ab
    match r4.2 with
    | none => (r4.1, false)
    | some l => backward 3 r4.1 l none

set_option maxHeartbeats 16000000 in
/-- C3: for leaves `A` (m-by-k) and `B` (k-by-n), after `L = sum(A @ B)` and
`L.backward()`, `A.grad` is `ones(m,n) @ Bᵀ` and `B.grad` is
`Aᵀ @ ones(m,n)`. -/
theorem matmul_sum_backward_grads (m k n : Nat) (Ad Bd : List Int)
    (hA : Ad.length = m * k) (hB : Bd.length = k * n) :
    (matmulSumScenario ⟨[m, k], Ad⟩ ⟨[k, n], Bd⟩).2 = true ∧
    gradData (matmulSumScenario ⟨[m, k], Ad⟩ ⟨[k, n], Bd⟩).1 0 =
      matmul ⟨[m, n], List.replicate (m * n) 1⟩ (transpose ⟨[k, n], Bd⟩) ∧
    gradData (matmulSumScenario ⟨[m, k], Ad⟩ ⟨[k, n], Bd⟩).1 2 =
      matmul (transpose ⟨[m, k], Ad⟩) ⟨[m, n], List.replicate (m * n) 1⟩ := by
  repeat
    first
    | simp [matmulSumScenario, newT, applyMatmul, tensorSum, backward_succ,
        backward_zero, runDeps, depStep, applyGradFn, applyMul, ewise, gradData,
        zerosLike, onesLike, sumArr, matmul, transpose, length_grid,
        sum_length_grid, zipWith_replicate_same, zipWith_addI_zeros,
        hA, hB, addI, mulI]
    | simp only [applyAdd, applyMul, applyGradFn, newT, ewise, runDeps,
        depStep, tensorSum, gradData, backward_succ, backward_zero, addI, mulI]

/-- Witness for C4 at shape (2,), data [5, 7]. -/
theorem reuse_accumulates_both_paths_witness :
    (reuseScenario ⟨[2], [5, 7]⟩).2 = true ∧
    gradData (reuseScenario ⟨[2], [5, 7]⟩).1 0 =
      some ⟨[2], List.replicate (List.prod [2]) 2⟩ :=
  reuse_accumulates_both_paths [2] [5, 7] (by decide)

/-- Witness for C3 with 1-by-1 matrices A = [[2]], B = [[3]]. -/
theorem matmul_sum_backward_grads_witness :
    (matmulSumScenario ⟨[1, 1], [2]⟩ ⟨[1, 1], [3]⟩).2 = true ∧
    gradData (matmulSumScenario ⟨[1, 1], [2]⟩ ⟨[1, 1], [3]⟩).1 0 =
      matmul ⟨[1, 1], List.replicate (1 * 1) 1⟩ (transpose ⟨[1, 1], [3]⟩) ∧
    gradData (matmulSumScenario ⟨[1, 1], [2]⟩ ⟨[1, 1], [3]⟩).1 2 =
      matmul (transpose ⟨[1, 1], [2]⟩) ⟨[1, 1], List.replicate (1 * 1) 1⟩ :=
  matmul_sum_backward_grads 1 1 1 [2] [3] (by decide) (by decide)

/-! ### Frame reasoning: reachability through dependency edges, heap
well-formedness, and what `backward` can mutate -/

/-- The dependency edges of the tensor at `a` (empty for `None` and for
invalid addresses). -/
def depsOf (h : Heap) (a : Nat) : List Dep :=
  match h[a]? with
  | some o => o.depends_on.getD []
  | none => []

/-- A heap is well formed when every dependency edge points inside the heap.
Every heap built through the constructor and the operation library is well
formed, since edges are only ever wired to existing operands. -/
def WF (h : Heap) : Prop :=
  ∀ i, i < h.length → ∀ d ∈ depsOf h i, d.inputs < h.length

instance WF.instDecidable (h : Heap) : Decidable (WF h) :=
  inferInstanceAs (Decidable (∀ i, i < h.length → ∀ d ∈ depsOf h i,
    d.inputs < h.length))

/-- The addresses the recursive backward traversal can visit from `a` within
`fuel` recursion steps: `a` itself and, through each dependency edge, the
tensors reachable from its input. -/
def reachL : Nat → Heap → Nat → List Nat
  | 0, _, a => [a]
  | Nat.succ fuel, h, a => a :: (depsOf h a).flatMap (fun d => reachL fuel h d.inputs)

/-- `h'` extends `h` without touching any existing object at all. -/
abbrev sameBelow (h h' : Heap) : Prop :=
  h.length ≤ h'.length ∧ ∀ p, p < h.length → h'[p]? = h[p]?

/-- `h'` extends `h` preserving every existing object's data buffer,
`requires_grad` flag and dependency list (only grad slots may differ). -/
abbrev stable (h h' : Heap) : Prop :=
  h.length ≤ h'.length ∧
  ∀ (p : Nat) (o : Obj), h[p]? = some o → ∃ o' : Obj, h'[p]? = some o' ∧
    o'.data = o.data ∧ o'.requires_grad = o.requires_grad ∧
    o'.depends_on = o.depends_on

theorem sameBelow_refl (h : Heap) : sameBelow h h :=
  ⟨Nat.le_refl _, fun _ _ => rfl⟩

theorem sameBelow_trans {h1 h2 h3 : Heap} (a : sameBelow h1 h2)
    (b : sameBelow h2 h3) : sameBelow h1 h3 :=
  ⟨Nat.le_trans a.1 b.1, fun p hp => by
    rw [b.2 p (Nat.lt_of_lt_of_le hp a.1), a.2 p hp]⟩

theorem sameBelow.toStable {h h' : Heap} (hs : sameBelow h h') : stable h h' :=
  ⟨hs.1, fun p o hp => ⟨o, by rw [hs.2 p (getElem?_some_lt hp)]; exact hp,
    rfl, rfl, rfl⟩⟩

theorem stable_refl (h : Heap) : stable h h :=
  (sameBelow_refl h).toStable

theorem stable_trans {h1 h2 h3 : Heap} (a : stable h1 h2) (b : stable h2 h3) :
    stable h1 h3 := by
  refine ⟨Nat.le_trans a.1 b.1, fun p o hp => ?_⟩
  obtain ⟨o', h2p, d2, r2, dep2⟩ := a.2 p o hp
  obtain ⟨o'', h3p, d3, r3, dep3⟩ := b.2 p o' h2p
  exact ⟨o'', h3p, by rw [d3, d2], by rw [r3, r2], by rw [dep3, dep2]⟩

theorem depsOf_congr {h h' : Heap} (hst : stable h h') (p : Nat)
    (hp : p < h.length) : depsOf h' p = depsOf h p := by
  have hex : ∃ o : Obj, h[p]? = some o := by
    rcases he : h[p]? with _ | o
    · rw [List.getElem?_eq_none_iff] at he
      omega
    · exact ⟨o, rfl⟩
  obtain ⟨o, hx⟩ := hex
  obtain ⟨o', hp', _, _, hdep⟩ := hst.2 p o hx
  unfold depsOf
  rw [hx, hp']
  simp [hdep]

theorem depsOf_of_get (h : Heap) (p : Nat) (o : Obj) (hp : h[p]? = some o) :
    depsOf h p = o.depends_on.getD [] := by
  unfold depsOf
  rw [hp]

theorem newT_sameBelow (h : Heap) (d : NDArray) (rg : Bool)
    (deps : Option (List Dep)) : sameBelow h (newT h d rg deps).1 := by
  refine ⟨?_, fun p hp => newT_get_old h d rg deps p hp⟩
  rw [newT_length]
  cases rg <;> simp

theorem reachL_congr {h h' : Heap} (f : Nat) (n : Nat)
    (hd : ∀ p, p < n → depsOf h' p = depsOf h p)
    (hb : ∀ p, p < n → ∀ d ∈ depsOf h p, d.inputs < n)
    (a : Nat) (ha : a < n) : reachL f h' a = reachL f h a := by
  induction f generalizing a with
  | zero => rfl
  | succ f ih =>
    unfold reachL
    rw [hd a ha]
    exact congrArg _ (List.flatMap_congr
      (fun dp hdp => ih dp.inputs (hb a ha dp hdp)))

theorem reachL_lt {h : Heap} (f : Nat) (n : Nat)
    (hb : ∀ p, p < n → ∀ d ∈ depsOf h p, d.inputs < n)
    (a : Nat) (ha : a < n) : ∀ p, p ∈ reachL f h a → p < n := by
  induction f generalizing a with
  | zero =>
    intro p hp
    unfold reachL at hp
    simp at hp
    exact hp ▸ ha
  | succ f ih =>
    intro p hp
    unfold reachL at hp
    rcases List.mem_cons.mp hp with h1 | h1
    · exact h1 ▸ ha
    · obtain ⟨dp, hdp, hin⟩ := List.mem_flatMap.mp h1
      exact ih dp.inputs (hb a ha dp hdp) p hin

theorem depsOf_ge (h : Heap) (p : Nat) (hp : h.length ≤ p) : depsOf h p = [] := by
  unfold depsOf
  rw [List.getElem?_eq_none hp]

theorem WF_newT (h : Heap) (d : NDArray) (rg : Bool) (deps : Option (List Dep))
    (hwf : WF h) (hdeps : ∀ dp ∈ deps.getD [], dp.inputs < h.length) :
    WF (newT h d rg deps).1 := by
  intro i hi dp hdp
  have hlen : h.length ≤ (newT h d rg deps).1.length := (newT_sameBelow h d rg deps).1
  rcases Nat.lt_trichotomy i h.length with hlt | heq | hgt
  · rw [depsOf_congr (newT_sameBelow h d rg deps).toStable i hlt] at hdp
    exact Nat.lt_of_lt_of_le (hwf i hlt dp hdp) hlen
  · subst heq
    rw [depsOf_of_get _ _ _ (newT_get_self h d rg deps)] at hdp
    exact Nat.lt_of_lt_of_le (hdeps dp hdp) hlen
  · cases rg with
    | false =>
      rw [newT_length] at hi
      simp at hi
      omega
    | true =>
      have hieq : i = h.length + 1 := by
        rw [newT_length] at hi
        simp at hi
        omega
      subst hieq
      rw [depsOf_of_get _ _ _ (newT_grad_obj h d deps)] at hdp
      simp at hdp

theorem applyNeg_frame (h : Heap) (a : Nat) (hwf : WF h) :
    sameBelow h (applyNeg h a).1 ∧ WF (applyNeg h a).1 := by
  unfold applyNeg
  split
  · exact ⟨sameBelow_refl h, hwf⟩
  next o ho =>
    split
    · exact ⟨newT_sameBelow _ _ _ _, WF_newT _ _ _ _ hwf (by
        intro dp hdp
        simp at hdp
        rw [hdp]
        exact getElem?_some_lt ho)⟩
    · exact ⟨newT_sameBelow _ _ _ _, WF_newT _ _ _ _ hwf (by intro dp hdp; simp at hdp)⟩

theorem applyAdd_frame (h : Heap) (a b : Nat) (hwf : WF h) :
    sameBelow h (applyAdd h a b).1 ∧ WF (applyAdd h a b).1 := by
  unfold applyAdd
  split
  next oa ob hoa hob =>
    split
    · exact ⟨sameBelow_refl h, hwf⟩
    next d hd =>
      dsimp only
      split
      · refine ⟨newT_sameBelow _ _ _ _, WF_newT _ _ _ _ hwf ?_⟩
        intro dp hdp
        simp only [Option.getD_some] at hdp
        rcases List.mem_append.mp hdp with h1 | h1
        · split at h1
          · simp at h1
            rw [h1]
            exact getElem?_some_lt hoa
          · simp at h1
        · split at h1
          · simp at h1
            rw [h1]
            exact getElem?_some_lt hob
          · simp at h1
      · exact ⟨newT_sameBelow _ _ _ _,
          WF_newT _ _ _ _ hwf (by intro dp hdp; simp at hdp)⟩
  · exact ⟨sameBelow_refl h, hwf⟩

theorem applyMul_frame (h : Heap) (a b : Nat) (hwf : WF h) :
    sameBelow h (applyMul h a b).1 ∧ WF (applyMul h a b).1 := by
  unfold applyMul
  split
  next oa ob hoa hob =>
    split
    · exact ⟨sameBelow_refl h, hwf⟩
    next d hd =>
      dsimp only
      split
      · refine ⟨newT_sameBelow _ _ _ _, WF_newT _ _ _ _ hwf ?_⟩
        intro dp hdp
        simp only [Option.getD_some] at hdp
        rcases List.mem_append.mp hdp with h1 | h1
        · split at h1
          · simp at h1
            rw [h1]
            exact getElem?_some_lt hoa
          · simp at h1
        · split at h1
          · simp at h1
            rw [h1]
            exact getElem?_some_lt hob
          · simp at h1
      · exact ⟨newT_sameBelow _ _ _ _,
          WF_newT _ _ _ _ hwf (by intro dp hdp; simp at hdp)⟩
  · exact ⟨sameBelow_refl h, hwf⟩

theorem applyMatmul_frame (h : Heap) (a b : Nat) (hwf : WF h) :
    sameBelow h (applyMatmul h a b).1 ∧ WF (applyMatmul h a b).1 := by
  unfold applyMatmul
  split
  next oa ob hoa hob =>
    split
    · exact ⟨sameBelow_refl h, hwf⟩
    next d hd =>
      dsimp only
      split
      · refine ⟨newT_sameBelow _ _ _ _, WF_newT _ _ _ _ hwf ?_⟩
        intro dp hdp
        simp only [Option.getD_some] at hdp
        rcases List.mem_append.mp hdp with h1 | h1
        · split at h1
          · simp at h1
            rw [h1]
            exact getElem?_some_lt hoa
          · simp at h1
        · split at h1
          · simp at h1
            rw [h1]
            exact getElem?_some_lt hob
          · simp at h1
      · exact ⟨newT_sameBelow _ _ _ _,
          WF_newT _ _ _ _ hwf (by intro dp hdp; simp at hdp)⟩
  · exact ⟨sameBelow_refl h, hwf⟩

theorem tensorSum_frame (h : Heap) (a : Nat) (hwf : WF h) :
    sameBelow h (tensorSum h a).1 ∧ WF (tensorSum h a).1 := by
  unfold tensorSum
  split
  · exact ⟨sameBelow_refl h, hwf⟩
  next o ho =>
    split
    · exact ⟨newT_sameBelow _ _ _ _, WF_newT _ _ _ _ hwf (by
        intro dp hdp
        simp at hdp
        rw [hdp]
        exact getElem?_some_lt ho)⟩
    · exact ⟨newT_sameBelow _ _ _ _, WF_newT _ _ _ _ hwf (by intro dp hdp; simp at hdp)⟩

theorem applyGradFn_frame (h : Heap) (fn : GFn) (g : Nat) (hwf : WF h) :
    sameBelow h (applyGradFn h fn g).1 ∧ WF (applyGradFn h fn g).1 := by
  cases fn with
  | idFn => exact ⟨sameBelow_refl h, hwf⟩
  | negFn => exact applyNeg_frame h g hwf
  | mulFn b => exact ⟨sameBelow_refl h, hwf⟩
  | matGradL b =>
    simp only [applyGradFn]
    split
    next og ob hog hob =>
      split
      · exact ⟨sameBelow_refl h, hwf⟩
      · exact ⟨newT_sameBelow _ _ _ _,
          WF_newT _ _ _ _ hwf (by intro dp hdp; simp at hdp)⟩
    · exact ⟨sameBelow_refl h, hwf⟩
  | matGradR a =>
    simp only [applyGradFn]
    split
    next og oa hog hoa =>
      split
      · exact ⟨sameBelow_refl h, hwf⟩
      · exact ⟨newT_sameBelow _ _ _ _,
          WF_newT _ _ _ _ hwf (by intro dp hdp; simp at hdp)⟩
    · exact ⟨sameBelow_refl h, hwf⟩
  | sumFn inp =>
    simp only [applyGradFn]
    split
    · exact ⟨sameBelow_refl h, hwf⟩
    next oi hoi =>
      have h1 := newT_sameBelow h (onesLike oi.data) false none
      have h1w := WF_newT h (onesLike oi.data) false none hwf
        (by intro dp hdp; simp at hdp)
      have h2 := applyMul_frame (newT h (onesLike oi.data) false none).1
        (newT h (onesLike oi.data) false none).2 g h1w
      exact ⟨sameBelow_trans h1 h2.1, h2.2⟩

theorem set_grad_frame (h : Heap) (a : Nat) (o : Obj) (g : Option Nat)
    (ha : h[a]? = some o) :
    stable h (h.set a { o with grad := g }) ∧
    (WF h → WF (h.set a { o with grad := g })) ∧
    (∀ p, p ≠ a → (h.set a { o with grad := g })[p]? = h[p]?) ∧
    (h.set a { o with grad := g })[a]? = some { o with grad := g } := by
  have halt : a < h.length := getElem?_some_lt ha
  have hlen : (h.set a { o with grad := g }).length = h.length :=
    List.length_set h a _
  have hga : (h.set a { o with grad := g })[a]? = some { o with grad := g } :=
    List.getElem?_set_eq_of_lt _ halt
  have hother : ∀ p, p ≠ a → (h.set a { o with grad := g })[p]? = h[p]? :=
    fun p hp => List.getElem?_set_ne (fun he => hp he.symm)
  have hdeps : ∀ p, depsOf (h.set a { o with grad := g }) p = depsOf h p := by
    intro p
    by_cases hpa : p = a
    · subst hpa
      rw [depsOf_of_get _ _ _ hga, depsOf_of_get _ _ _ ha]
    · unfold depsOf
      rw [hother p hpa]
  refine ⟨⟨hlen.ge.trans (Nat.le_refl _), ?_⟩, ?_, hother, hga⟩
  · intro p o' hpo
    by_cases hpa : p = a
    · subst hpa
      rw [ha] at hpo
      cases hpo
      exact ⟨{ o with grad := g }, hga, rfl, rfl, rfl⟩
    · exact ⟨o', by rw [hother p hpa]; exact hpo, rfl, rfl, rfl⟩
  · intro hwf i hi dp hdp
    rw [hlen] at hi
    rw [hdeps] at hdp
    rw [hlen]
    exact hwf i hi dp hdp

theorem foldl_depStep_false (bk : Heap → Nat → Option Nat → Heap × Bool)
    (g : Nat) (deps : List Dep) (h : Heap) :
    List.foldl (depStep bk g) (h, false) deps = (h, false) := by
  induction deps with
  | nil => rfl
  | cons d ds ih =>
    rw [List.foldl_cons]
    exact ih

/-- The frame property of one pass over a dependency list: existing objects
keep their data, flag and edges; the heap stays well formed; and any object
whose address is not reachable from some edge's input is untouched
entirely. -/
theorem runDeps_frame (fuel : Nat)
    (hbk : ∀ (h : Heap) (a : Nat) (gOpt : Option Nat), WF h →
      stable h (backward fuel h a gOpt).1 ∧ WF (backward fuel h a gOpt).1 ∧
      ∀ p, p < h.length → p ∉ reachL fuel h a →
        (backward fuel h a gOpt).1[p]? = h[p]?) :
    ∀ (deps : List Dep) (h : Heap) (g : Nat), WF h →
      (∀ d ∈ deps, d.inputs < h.length) →
      stable h (runDeps (backward fuel) h deps g).1 ∧
      WF (runDeps (backward fuel) h deps g).1 ∧
      ∀ p, p < h.length →
        p ∉ deps.flatMap (fun d => reachL fuel h d.inputs) →
        (runDeps (backward fuel) h deps g).1[p]? = h[p]? := by
  intro deps
  induction deps with
  | nil =>
    intro h g hwf _
    exact ⟨stable_refl h, hwf, fun p _ _ => rfl⟩
  | cons d ds ih =>
    intro h g hwf hb
    have hdin : d.inputs < h.length := hb d (List.mem_cons_self d ds)
    have hgf := applyGradFn_frame h d.gradFn g hwf
    set r := applyGradFn h d.gradFn g with hr
    have hrun : runDeps (backward fuel) h (d :: ds) g =
        List.foldl (depStep (backward fuel) g) (depStep (backward fuel) g (h, true) d) ds := by
      rw [runDeps, List.foldl_cons]
    have hstep : depStep (backward fuel) g (h, true) d =
        match r.2 with
        | none => (r.1, false)
        | some bg => backward fuel r.1 d.inputs (some bg) := rfl
    rcases hr2 : r.2 with _ | bg
    · rw [hrun, hstep]
      simp only [hr2, foldl_depStep_false]
      exact ⟨hgf.1.toStable, hgf.2, fun p hp _ => hgf.1.2 p hp⟩
    · have hbk1 := hbk r.1 d.inputs (some bg) hgf.2
      set B := backward fuel r.1 d.inputs (some bg) with hB
      have hreach1 : reachL fuel r.1 d.inputs = reachL fuel h d.inputs :=
        reachL_congr fuel h.length
          (fun p hp => depsOf_congr hgf.1.toStable p hp) hwf d.inputs hdin
      have hstab_hB : stable h B.1 := stable_trans hgf.1.toStable hbk1.1
      have hpres_hB : ∀ p, p < h.length → p ∉ reachL fuel h d.inputs →
          B.1[p]? = h[p]? := by
        intro p hp hnr
        rw [hbk1.2.2 p (Nat.lt_of_lt_of_le hp hgf.1.1)
          (by rw [hreach1]; exact hnr), hgf.1.2 p hp]
      rcases hok : B.2 with _ | _
      · have hBeq : backward fuel r.1 d.inputs (some bg) = (B.1, false) := by
          rw [← hok]
        rw [hrun, hstep]
        simp only [hr2, hBeq, foldl_depStep_false]
        refine ⟨hstab_hB, hbk1.2.1, ?_⟩
        intro p hp hnr
        refine hpres_hB p hp ?_
        intro hmem
        exact hnr (List.mem_flatMap.mpr ⟨d, List.mem_cons_self d ds, hmem⟩)
      · have hBeq : backward fuel r.1 d.inputs (some bg) = (B.1, true) := by
          rw [← hok]
        have hrun2 : runDeps (backward fuel) h (d :: ds) g =
            runDeps (backward fuel) B.1 ds g := by
          rw [hrun, hstep]
          simp only [hr2, hBeq]
          rw [runDeps]
        have hih := ih B.1 g hbk1.2.1
          (fun d' hd' => Nat.lt_of_lt_of_le (hb d' (List.mem_cons_of_mem d hd'))
            hstab_hB.1)
        rw [hrun2]
        refine ⟨stable_trans hstab_hB hih.1, hih.2.1, ?_⟩
        intro p hp hnr
        have hreach2 : ∀ d' ∈ ds, reachL fuel B.1 d'.inputs = reachL fuel h d'.inputs := by
          intro d' hd'
          exact reachL_congr fuel h.length
            (fun q hq => depsOf_congr hstab_hB q hq) hwf d'.inputs
            (hb d' (List.mem_cons_of_mem d hd'))
        have hnr_d : p ∉ reachL fuel h d.inputs := by
          intro hmem
          exact hnr (List.mem_flatMap.mpr ⟨d, List.mem_cons_self d ds, hmem⟩)
        have hnr_ds : p ∉ ds.flatMap (fun d' => reachL fuel B.1 d'.inputs) := by
          intro hmem
          obtain ⟨d', hd', hmem'⟩ := List.mem_flatMap.mp hmem
          rw [hreach2 d' hd'] at hmem'
          exact hnr (List.mem_flatMap.mpr ⟨d', List.mem_cons_of_mem d hd', hmem'⟩)
        rw [hih.2.2 p (Nat.lt_of_lt_of_le hp hstab_hB.1) hnr_ds,
          hpres_hB p hp hnr_d]

/-- The frame property of the backward traversal: every pre-existing tensor
keeps its data buffer, `requires_grad` flag and dependency list; the heap
stays well formed; and a pre-existing tensor that is not the root and not
reachable from the root through dependency edges is untouched entirely (its
grad slot included). -/
theorem backward_frame : ∀ (fuel : Nat) (h : Heap) (a : Nat) (gOpt : Option Nat),
    WF h →
    stable h (backward fuel h a gOpt).1 ∧ WF (backward fuel h a gOpt).1 ∧
    ∀ p, p < h.length → p ∉ reachL fuel h a →
      (backward fuel h a gOpt).1[p]? = h[p]? := by
  intro fuel
  induction fuel with
  | zero =>
    intro h a g hwf
    exact ⟨stable_refl h, hwf, fun p _ _ => rfl⟩
  | succ fuel ih =>
    intro h a gOpt hwf
    rw [backward_succ]
    rcases hga : h[a]? with _ | o
    · exact ⟨stable_refl h, hwf, fun p _ _ => rfl⟩
    obtain ⟨od, org, ogr, odeps⟩ := o
    simp only [hga]
    rcases org with _ | _
    · simp only [Bool.false_eq_true, if_false]
      exact ⟨stable_refl h, hwf, by intro p hp hnr; trivial⟩
    simp only [if_true]
    have halt : a < h.length := getElem?_some_lt hga
    have hseed : sameBelow h (match gOpt with
        | some g => ((h, g) : Heap × Nat)
        | none => newT h (onesLike (Obj.mk od true ogr odeps).data) false none).1 ∧
        WF (match gOpt with
        | some g => ((h, g) : Heap × Nat)
        | none => newT h (onesLike (Obj.mk od true ogr odeps).data) false none).1 := by
      rcases gOpt with _ | g
      · exact ⟨newT_sameBelow _ _ _ _,
          WF_newT _ _ _ _ hwf (by intro dp hdp; simp at hdp)⟩
      · exact ⟨sameBelow_refl h, hwf⟩
    set hg := (match gOpt with
        | some g => ((h, g) : Heap × Nat)
        | none => newT h (onesLike (Obj.mk od true ogr odeps).data) false none) with hhg
    rcases ogr with _ | sg
    · exact ⟨hseed.1.toStable, hseed.2, fun p hp _ => hseed.1.2 p hp⟩
    simp only []
    have hadd := applyAdd_frame hg.1 sg hg.2 hseed.2
    set r := applyAdd hg.1 sg hg.2 with hr
    have hsb_r : sameBelow h r.1 := sameBelow_trans hseed.1 hadd.1
    rcases hr2 : r.2 with _ | ng
    · exact ⟨hsb_r.toStable, hadd.2, fun p hp _ => hsb_r.2 p hp⟩
    simp only [hr2]
    have hra : r.1[a]? = some ⟨od, true, some sg, odeps⟩ := by
      rw [hsb_r.2 a halt]
      exact hga
    have hset := set_grad_frame r.1 a ⟨od, true, some sg, odeps⟩ (some ng) hra
    set h3 := r.1.set a ⟨od, true, some ng, odeps⟩ with hh3
    have hstab3 : stable h h3 := stable_trans hsb_r.toStable hset.1
    have hwf3 : WF h3 := hset.2.1 hadd.2
    have hdeps3 : ∀ q, q < h.length → depsOf h3 q = depsOf h q :=
      fun q hq => depsOf_congr hstab3 q hq
    have hpres3 : ∀ p, p < h.length → p ≠ a → h3[p]? = h[p]? := by
      intro p hp hpa
      rw [hset.2.2.1 p hpa, hsb_r.2 p hp]
    rcases odeps with _ | deps
    · exact ⟨hstab3, hwf3, fun p hp hnr => hpres3 p hp (by
        intro he
        exact hnr (he ▸ List.mem_cons_self a _))⟩
    simp only []
    have hdeps_eq : depsOf h a = deps := by
      rw [depsOf_of_get h a _ hga]
      rfl
    have hbounds : ∀ d ∈ deps, d.inputs < h3.length := by
      intro d hd
      have hdh : d.inputs < h.length := hwf a halt d (by rw [hdeps_eq]; exact hd)
      exact Nat.lt_of_lt_of_le hdh hstab3.1
    have hfold := runDeps_frame fuel ih deps h3 hg.2 hwf3 hbounds
    refine ⟨stable_trans hstab3 hfold.1, hfold.2.1, ?_⟩
    intro p hp hnr
    have hreach : ∀ d ∈ deps, reachL fuel h3 d.inputs = reachL fuel h d.inputs := by
      intro d hd
      exact reachL_congr fuel h.length (fun q hq => hdeps3 q hq) hwf d.inputs
        (hwf a halt d (by rw [hdeps_eq]; exact hd))
    have hpa : p ≠ a := by
      intro he
      exact hnr (he ▸ List.mem_cons_self a _)
    have hnr3 : p ∉ deps.flatMap (fun d => reachL fuel h3 d.inputs) := by
      intro hmem
      obtain ⟨d, hd, hmem'⟩ := List.mem_flatMap.mp hmem
      rw [hreach d hd] at hmem'
      refine hnr ?_
      unfold reachL
      refine List.mem_cons.mpr (Or.inr ?_)
      rw [hdeps_eq]
      exact List.mem_flatMap.mpr ⟨d, hd, hmem'⟩
    rw [hfold.2.2 p (Nat.lt_of_lt_of_le hp hstab3.1) hnr3, hpres3 p hp hpa]

theorem applyAdd_success (h : Heap) (x y : Nat) (ox oy : Obj) (d : NDArray)
    (hx : h[x]? = some ox) (hy : h[y]? = some oy)
    (hd : ewise addI ox.data oy.data = some d) :
    (applyAdd h x y).2 = some h.length ∧
    ∃ o' : Obj, (applyAdd h x y).1[h.length]? = some o' ∧ o'.data = d := by
  unfold applyAdd
  simp only [hx, hy, hd]
  split
  · exact ⟨by simp, ⟨_, newT_get_self _ _ _ _, rfl⟩⟩
  · exact ⟨by simp, ⟨_, newT_get_self _ _ _ _, rfl⟩⟩

/-- The remainder of a `backward` call once the seed has been resolved to a
concrete tensor address: the accumulation `self.grad += grad`, the grad
reassignment, and the dependency loop, exactly as in `backward`'s body. -/
def backwardTail (fuel : Nat) (h1 : Heap) (a : Nat) (od : NDArray)
    (gaddr : Nat) (odeps : Option (List Dep)) (s : Nat) : Heap × Bool :=
  let r := applyAdd h1 gaddr s
  match r.2 with
  | none => (r.1, false)
  | some ng =>
    let h3 := r.1.set a ⟨od, true, some ng, odeps⟩
    match odeps with
    | none => (h3, true)
    | some deps => runDeps (backward fuel) h3 deps s

theorem backward_eq_tail (fuel : Nat) (h : Heap) (a : Nat) (sOpt : Option Nat)
    (od : NDArray) (gaddr : Nat) (odeps : Option (List Dep))
    (hga : h[a]? = some ⟨od, true, some gaddr, odeps⟩) :
    backward (fuel + 1) h a sOpt =
      match sOpt with
      | some g => backwardTail fuel h a od gaddr odeps g
      | none => backwardTail fuel (newT h (onesLike od) false none).1 a od
          gaddr odeps (newT h (onesLike od) false none).2 := by
  rw [backward_succ]
  simp only [hga]
  rcases sOpt with _ | g <;> rfl

/-- What the post-seed part of a `backward` call does at the root: the seed
tensor's buffer is added elementwise into the root's grad buffer through a
freshly allocated tensor installed in the root's grad slot; the root's other
fields are untouched, the heap extends stably and stays well formed. -/
theorem backward_accum_core (fuel : Nat) (h h1 : Heap) (a : Nat)
    (od : NDArray) (gaddr : Nat) (og : Obj) (odeps : Option (List Dep))
    (s : Nat) (os : Obj) (sd : List Int)
    (hwf : WF h)
    (hga : h[a]? = some ⟨od, true, some gaddr, odeps⟩)
    (hgg : h[gaddr]? = some og)
    (hshape : og.data.shape = od.shape)
    (hsafe : ∀ d ∈ odeps.getD [], a ∉ reachL fuel h d.inputs ∧
      gaddr ∉ reachL fuel h d.inputs)
    (hsb1 : sameBelow h h1) (hwf1 : WF h1)
    (hs : h1[s]? = some os)
    (hossh : os.data.shape = od.shape) (hosd : os.data.data = sd) :
    ∃ (g' : Nat) (og' : Obj),
      (backwardTail fuel h1 a od gaddr odeps s).1[a]? =
        some ⟨od, true, some g', odeps⟩ ∧
      (backwardTail fuel h1 a od gaddr odeps s).1[g']? = some og' ∧
      og'.data = ⟨od.shape, List.zipWith addI og.data.data sd⟩ ∧
      h.length ≤ g' ∧
      stable h (backwardTail fuel h1 a od gaddr odeps s).1 ∧
      WF (backwardTail fuel h1 a od gaddr odeps s).1 := by
  have halt : a < h.length := getElem?_some_lt hga
  have hglt : gaddr < h.length := getElem?_some_lt hgg
  unfold backwardTail
  dsimp only
  have hg1 : h1[gaddr]? = some og := by
    rw [hsb1.2 gaddr hglt]
    exact hgg
  have hew : ewise addI og.data os.data =
      some ⟨od.shape, List.zipWith addI og.data.data sd⟩ := by
    unfold ewise
    rw [if_pos (by rw [hshape, hossh])]
    rw [hosd, hshape]
  have hacc := applyAdd_success h1 gaddr s og os _ hg1 hs hew
  have haddf := applyAdd_frame h1 gaddr s hwf1
  set r := applyAdd h1 gaddr s with hr
  obtain ⟨hr2, o', ho', ho'd⟩ := hacc
  rw [hr2]
  dsimp only
  set ng := h1.length with hng
  have hsb_r : sameBelow h r.1 := sameBelow_trans hsb1 haddf.1
  have hra : r.1[a]? = some ⟨od, true, some gaddr, odeps⟩ := by
    rw [hsb_r.2 a halt]
    exact hga
  have hane : a ≠ ng := by
    have := hsb1.1
    omega
  have hset := set_grad_frame r.1 a ⟨od, true, some gaddr, odeps⟩ (some ng) hra
  set h3 := r.1.set a ⟨od, true, some ng, odeps⟩ with hh3
  have hstab3 : stable h h3 := stable_trans hsb_r.toStable hset.1
  have hwf3 : WF h3 := hset.2.1 haddf.2
  have h3a : h3[a]? = some ⟨od, true, some ng, odeps⟩ := hset.2.2.2
  have h3ng : h3[ng]? = some o' := by
    rw [hset.2.2.1 ng (fun he => hane he.symm)]
    exact ho'
  have hnglen : h.length ≤ ng := hsb1.1
  rcases odeps with _ | deps
  · exact ⟨ng, o', h3a, h3ng, by rw [ho'd], hnglen, hstab3, hwf3⟩
  · have hdeps_eq : depsOf h a = deps := by
      rw [depsOf_of_get h a _ hga]
      rfl
    have hbounds : ∀ d ∈ deps, d.inputs < h3.length := by
      intro d hd
      have hdh : d.inputs < h.length := hwf a halt d (by rw [hdeps_eq]; exact hd)
      exact Nat.lt_of_lt_of_le hdh hstab3.1
    have hfold := runDeps_frame fuel
      (fun hh aa gg hw => backward_frame fuel hh aa gg hw)
      deps h3 s hwf3 hbounds
    have hreach : ∀ d ∈ deps, reachL fuel h3 d.inputs = reachL fuel h d.inputs := by
      intro d hd
      exact reachL_congr fuel h.length
        (fun q hq => depsOf_congr hstab3 q hq) hwf d.inputs
        (hwf a halt d (by rw [hdeps_eq]; exact hd))
    have hnra : a ∉ deps.flatMap (fun d => reachL fuel h3 d.inputs) := by
      intro hmem
      obtain ⟨d, hd, hmem'⟩ := List.mem_flatMap.mp hmem
      rw [hreach d hd] at hmem'
      exact ((hsafe d (by simp [hd])).1 hmem')
    have hFa : (runDeps (backward fuel) h3 deps s).1[a]? = h3[a]? :=
      hfold.2.2 a (Nat.lt_of_lt_of_le halt hstab3.1) hnra
    obtain ⟨o'', he'', hd'', _, _⟩ := hfold.1.2 ng o' h3ng
    exact ⟨ng, o'', by rw [hFa]; exact h3a, he'', by rw [hd'', ho'd], hnglen,
      stable_trans hstab3 hfold.1, hfold.2.1⟩

/-- The relation between an optional seed argument and the buffer it
contributes: an omitted seed stands for fresh ones of the root's size, a
given seed for the tensor at that address. -/
def SeedOK (hc : Heap) (od : NDArray) (L : Nat) (s : Option Nat)
    (sd : List Int) : Prop :=
  match s with
  | none => sd = List.replicate L 1
  | some i => ∃ os : Obj, hc[i]? = some os ∧ os.data.shape = od.shape ∧
      os.data.data = sd

/-- What a single `backward` call does at the root: the seed (defaulted to
fresh ones when omitted) is added elementwise into the root's grad buffer,
through a freshly allocated tensor installed in the root's grad slot; the
root's other fields are untouched, the heap extends stably and stays well
formed. -/
theorem backward_accum_step (fuel : Nat) (h : Heap) (a : Nat)
    (sOpt : Option Nat) (od : NDArray) (gaddr : Nat) (og : Obj)
    (odeps : Option (List Dep)) (sd : List Int)
    (hwf : WF h)
    (hga : h[a]? = some ⟨od, true, some gaddr, odeps⟩)
    (hgg : h[gaddr]? = some og)
    (hshape : og.data.shape = od.shape)
    (hsafe : ∀ d ∈ odeps.getD [], a ∉ reachL fuel h d.inputs ∧
      gaddr ∉ reachL fuel h d.inputs)
    (hseed : SeedOK h od od.data.length sOpt sd) :
    ∃ (g' : Nat) (og' : Obj),
      (backward (fuel + 1) h a sOpt).1[a]? = some ⟨od, true, some g', odeps⟩ ∧
      (backward (fuel + 1) h a sOpt).1[g']? = some og' ∧
      og'.data = ⟨od.shape, List.zipWith addI og.data.data sd⟩ ∧
      h.length ≤ g' ∧
      stable h (backward (fuel + 1) h a sOpt).1 ∧
      WF (backward (fuel + 1) h a sOpt).1 := by
  rw [backward_eq_tail fuel h a sOpt od gaddr odeps hga]
  rcases sOpt with _ | i
  · simp only []
    have hsd : sd = List.replicate od.data.length 1 := hseed
    refine backward_accum_core fuel h _ a od gaddr og odeps _
      ⟨onesLike od, false, none, none⟩ sd hwf hga hgg hshape hsafe
      (newT_sameBelow h (onesLike od) false none)
      (WF_newT h (onesLike od) false none hwf (by intro dp hdp; simp at hdp))
      ?_ rfl ?_
    · rw [newT_snd]
      exact newT_get_self h (onesLike od) false none
    · rw [hsd]
      rfl
  · simp only []
    obtain ⟨os, hos, hossh, hosd⟩ := hseed
    exact backward_accum_core fuel h h a od gaddr og odeps i os sd hwf hga hgg
      hshape hsafe (sameBelow_refl h) hwf hos hossh hosd

/-- `n` successive `backward` calls on the same root, each with its own
(optional) seed. -/
def backwardN (fuel : Nat) (h : Heap) (a : Nat) (seeds : List (Option Nat)) : Heap :=
  seeds.foldl (fun hc s => (backward fuel hc a s).1) h

/-- The buffer a seed contributes: all ones of the root's size when the seed
is omitted, the seed tensor's buffer otherwise. -/
def seedDataAt (h : Heap) (L : Nat) (s : Option Nat) : List Int :=
  match s with
  | none => List.replicate L 1
  | some i => ((h[i]?).map (fun o => o.data.data)).getD []

theorem backwardN_accum_aux (fuel : Nat) (h : Heap) (a : Nat) (od : NDArray)
    (odeps : Option (List Dep)) :
    ∀ (seeds : List (Option Nat)) (hc : Heap) (gaddr : Nat) (og : Obj),
    WF hc → stable h hc →
    hc[a]? = some ⟨od, true, some gaddr, odeps⟩ →
    hc[gaddr]? = some og →
    og.data.shape = od.shape →
    (∀ d ∈ odeps.getD [], a ∉ reachL fuel hc d.inputs ∧
      gaddr ∉ reachL fuel hc d.inputs) →
    (∀ i, some i ∈ seeds → ∃ os : Obj, h[i]? = some os ∧
      os.data.shape = od.shape) →
    ∃ (g' : Nat) (og' : Obj),
      (backwardN (fuel + 1) hc a seeds)[a]? = some ⟨od, true, some g', odeps⟩ ∧
      (backwardN (fuel + 1) hc a seeds)[g']? = some og' ∧
      og'.data = ⟨od.shape,
        seeds.foldl
          (fun acc s => List.zipWith addI acc (seedDataAt h od.data.length s))
          og.data.data⟩ := by
  intro seeds
  induction seeds with
  | nil =>
    intro hc gaddr og hwfc hstc hgac hggc hshc hsafec hseedc
    refine ⟨gaddr, og, hgac, hggc, ?_⟩
    rw [List.foldl_nil, ← hshc]
  | cons s rest ih =>
    intro hc gaddr og hwfc hstc hgac hggc hshc hsafec hseedc
    have halt : a < hc.length := getElem?_some_lt hgac
    have hdeps_eq : depsOf hc a = odeps.getD [] := by
      rw [depsOf_of_get hc a _ hgac]
    have hseedok : SeedOK hc od od.data.length s
        (seedDataAt h od.data.length s) := by
      rcases s with _ | i
      · rfl
      · obtain ⟨os, hos, hossh⟩ := hseedc i (by simp)
        obtain ⟨os', hos', hd', _, _⟩ := hstc.2 i os hos
        refine ⟨os', hos', by rw [hd']; exact hossh, ?_⟩
        rw [hd']
        show os.data.data = ((h[i]?).map (fun o => o.data.data)).getD []
        rw [hos]
        rfl
    obtain ⟨g', og', hga', hgg', hdata', hglen', hstab', hwf'⟩ :=
      backward_accum_step fuel hc a s od gaddr og odeps
        (seedDataAt h od.data.length s) hwfc hgac hggc hshc hsafec hseedok
    have hBN : backwardN (fuel + 1) hc a (s :: rest) =
        backwardN (fuel + 1) (backward (fuel + 1) hc a s).1 a rest := by
      rw [backwardN, List.foldl_cons]
      rfl
    rw [hBN]
    have hsafec' : ∀ d ∈ odeps.getD [],
        a ∉ reachL fuel (backward (fuel + 1) hc a s).1 d.inputs ∧
        g' ∉ reachL fuel (backward (fuel + 1) hc a s).1 d.inputs := by
      intro d hd
      have hdin : d.inputs < hc.length :=
        hwfc a halt d (by rw [hdeps_eq]; exact hd)
      have hre : reachL fuel (backward (fuel + 1) hc a s).1 d.inputs =
          reachL fuel hc d.inputs :=
        reachL_congr fuel hc.length
          (fun q hq => depsOf_congr hstab' q hq) hwfc d.inputs hdin
      rw [hre]
      refine ⟨(hsafec d hd).1, ?_⟩
      intro hmem
      have := reachL_lt fuel hc.length hwfc d.inputs hdin g' hmem
      omega
    have hfinal := ih (backward (fuel + 1) hc a s).1 g' og' hwf'
      (stable_trans hstc hstab') hga' hgg' (by rw [hdata']) hsafec'
      (fun i hi => hseedc i (by simp [hi]))
    obtain ⟨g2, og2, h1, h2, h3⟩ := hfinal
    refine ⟨g2, og2, h1, h2, ?_⟩
    rw [h3, List.foldl_cons, hdata']

/-- C5: an omitted seed defaults to all ones of the root's shape, and every
`backward` call adds its seed elementwise into `root.grad` (through a fresh
tensor, never overwriting), so after the listed calls the root's grad buffer
is the initial zeros plus the elementwise sum of all the seeds.  The
safety hypothesis states what holds of every graph the API builds: the root
and its grad tensor are not reachable strictly below the root (the graph is
a DAG and grad tensors never appear in it). -/
theorem backward_seed_defaults_and_accumulates (fuel : Nat) (h : Heap)
    (a : Nat) (seeds : List (Option Nat)) (od : NDArray) (gaddr : Nat)
    (og : Obj) (odeps : Option (List Dep))
    (hwf : WF h)
    (hga : h[a]? = some ⟨od, true, some gaddr, odeps⟩)
    (hgg : h[gaddr]? = some og)
    (hzero : og.data = zerosLike od)
    (hsafe : ∀ d ∈ odeps.getD [], a ∉ reachL fuel h d.inputs ∧
      gaddr ∉ reachL fuel h d.inputs)
    (hseeds : ∀ i, some i ∈ seeds → ∃ os : Obj, h[i]? = some os ∧
      os.data.shape = od.shape) :
    ∃ (g' : Nat) (og' : Obj),
      (backwardN (fuel + 1) h a seeds)[a]? = some ⟨od, true, some g', odeps⟩ ∧
      (backwardN (fuel + 1) h a seeds)[g']? = some og' ∧
      og'.data = ⟨od.shape,
        seeds.foldl
          (fun acc s => List.zipWith addI acc (seedDataAt h od.data.length s))
          (List.replicate od.data.length 0)⟩ := by
  obtain ⟨g', og', h1, h2, h3⟩ := backwardN_accum_aux fuel h a od odeps seeds h
    gaddr og hwf (stable_refl h) hga hgg (by rw [hzero]; rfl) hsafe hseeds
  exact ⟨g', og', h1, h2, by rw [h3, hzero]; rfl⟩

/-- Witness for C5: a leaf root of shape (2,), one defaulted seed followed by
an explicit seed [3, 4]; the final grad is zeros + ones + [3, 4]. -/
theorem backward_seed_defaults_and_accumulates_witness :
    ∃ (g' : Nat) (og' : Obj),
      (backwardN (1 + 1) (newT (newT [] ⟨[2], [5, 7]⟩ true none).1
          ⟨[2], [3, 4]⟩ false none).1 0 [none, some 2])[0]? =
        some ⟨⟨[2], [5, 7]⟩, true, some g', none⟩ ∧
      (backwardN (1 + 1) (newT (newT [] ⟨[2], [5, 7]⟩ true none).1
          ⟨[2], [3, 4]⟩ false none).1 0 [none, some 2])[g']? = some og' ∧
      og'.data = ⟨([2] : List Nat),
        [none, some 2].foldl
          (fun acc s => List.zipWith addI acc
            (seedDataAt (newT (newT [] ⟨[2], [5, 7]⟩ true none).1
              ⟨[2], [3, 4]⟩ false none).1 2 s))
          (List.replicate 2 0)⟩ := by
  refine backward_seed_defaults_and_accumulates 1
    (newT (newT [] ⟨[2], [5, 7]⟩ true none).1 ⟨[2], [3, 4]⟩ false none).1 0
    [none, some 2] ⟨[2], [5, 7]⟩ 1 ⟨⟨[2], [0, 0]⟩, false, none, none⟩ none
    (by decide) (by decide) (by decide) (by decide)
    (by intro d hd; simp at hd) ?_
  intro i hi
  simp at hi
  subst hi
  exact ⟨⟨⟨[2], [3, 4]⟩, false, none, none⟩, by decide, by decide⟩

/-- C10: a `backward` call mutates only grad slots, and only of the root and
of tensors reachable from it through dependency edges: every pre-existing
tensor keeps its data buffer, `requires_grad` flag and dependency list, a
pre-existing tensor outside the reachable set is untouched entirely, and in
particular a seed tensor outside the graph below the root is not mutated. -/
theorem backward_mutates_only_reachable_grad_slots (fuel : Nat) (h : Heap)
    (a : Nat) (gOpt : Option Nat) (hwf : WF h) :
    (∀ (p : Nat) (o : Obj), h[p]? = some o → ∃ o' : Obj,
      (backward fuel h a gOpt).1[p]? = some o' ∧ o'.data = o.data ∧
      o'.requires_grad = o.requires_grad ∧ o'.depends_on = o.depends_on) ∧
    (∀ p, p < h.length → p ∉ reachL fuel h a →
      (backward fuel h a gOpt).1[p]? = h[p]?) ∧
    (∀ s, gOpt = some s → s < h.length → s ∉ reachL fuel h a →
      (backward fuel h a gOpt).1[s]? = h[s]?) := by
  have hf := backward_frame fuel h a gOpt hwf
  exact ⟨fun p o hp => hf.1.2 p o hp, hf.2.2, fun s _ hs hns => hf.2.2 s hs hns⟩

/-- Witness for C10 on a concrete two-tensor graph (`y = -x`) with a spare
unrelated tensor in the heap. -/
theorem backward_mutates_only_reachable_grad_slots_witness :
    (∀ (p : Nat) (o : Obj),
      (newT (applyNeg (newT [] ⟨[1], [2]⟩ true none).1 0).1
        ⟨[1], [9]⟩ false none).1[p]? = some o → ∃ o' : Obj,
      (backward 3 (newT (applyNeg (newT [] ⟨[1], [2]⟩ true none).1 0).1
        ⟨[1], [9]⟩ false none).1 2 none).1[p]? = some o' ∧ o'.data = o.data ∧
      o'.requires_grad = o.requires_grad ∧ o'.depends_on = o.depends_on) ∧
    (∀ p, p < (newT (applyNeg (newT [] ⟨[1], [2]⟩ true none).1 0).1
        ⟨[1], [9]⟩ false none).1.length →
      p ∉ reachL 3 (newT (applyNeg (newT [] ⟨[1], [2]⟩ true none).1 0).1
        ⟨[1], [9]⟩ false none).1 2 →
      (backward 3 (newT (applyNeg (newT [] ⟨[1], [2]⟩ true none).1 0).1
        ⟨[1], [9]⟩ false none).1 2 none).1[p]? =
      (newT (applyNeg (newT [] ⟨[1], [2]⟩ true none).1 0).1
        ⟨[1], [9]⟩ false none).1[p]?) ∧
    (∀ s, (none : Option Nat) = some s →
      s < (newT (applyNeg (newT [] ⟨[1], [2]⟩ true none).1 0).1
        ⟨[1], [9]⟩ false none).1.length →
      s ∉ reachL 3 (newT (applyNeg (newT [] ⟨[1], [2]⟩ true none).1 0).1
        ⟨[1], [9]⟩ false none).1 2 →
      (backward 3 (newT (applyNeg (newT [] ⟨[1], [2]⟩ true none).1 0).1
        ⟨[1], [9]⟩ false none).1 2 none).1[s]? =
      (newT (applyNeg (newT [] ⟨[1], [2]⟩ true none).1 0).1
        ⟨[1], [9]⟩ false none).1[s]?) :=
  backward_mutates_only_reachable_grad_slots 3
    (newT (applyNeg (newT [] ⟨[1], [2]⟩ true none).1 0).1
      ⟨[1], [9]⟩ false none).1 2 none (by decide)

/-! ### C8: zero_grad allocates fresh zeros and is isolated -/

theorem zeroGrad_spec (h : Heap) (a : Nat) (o : Obj)
    (ha : h[a]? = some o) (hrg : o.requires_grad = true) :
    zeroGrad h a =
      ((h ++ [(⟨zerosLike o.data, false, none, none⟩ : Obj)]).set a
        { o with grad := some h.length }, true) := by
  unfold zeroGrad
  rw [ha]
  simp [hrg]

theorem zeroGrad_frame (h : Heap) (a : Nat) (o : Obj)
    (ha : h[a]? = some o) (hrg : o.requires_grad = true) :
    (zeroGrad h a).2 = true ∧
    (zeroGrad h a).1[a]? = some { o with grad := some h.length } ∧
    (zeroGrad h a).1[h.length]? =
      some ⟨zerosLike o.data, false, none, none⟩ ∧
    (∀ p, p < h.length → p ≠ a → (zeroGrad h a).1[p]? = h[p]?) ∧
    (zeroGrad h a).1.length = h.length + 1 ∧
    stable h (zeroGrad h a).1 ∧
    (WF h → WF (zeroGrad h a).1) := by
  have halt : a < h.length := getElem?_some_lt ha
  rw [zeroGrad_spec h a o ha hrg]
  have hlen : ((h ++ [(⟨zerosLike o.data, false, none, none⟩ : Obj)]).set a
      { o with grad := some h.length }).length = h.length + 1 := by
    simp
  have hga : ((h ++ [(⟨zerosLike o.data, false, none, none⟩ : Obj)]).set a
      { o with grad := some h.length })[a]? = some { o with grad := some h.length } :=
    List.getElem?_set_eq_of_lt _ (by simp; omega)
  have hother : ∀ p, p ≠ a →
      ((h ++ [(⟨zerosLike o.data, false, none, none⟩ : Obj)]).set a
        { o with grad := some h.length })[p]? =
      (h ++ [(⟨zerosLike o.data, false, none, none⟩ : Obj)])[p]? :=
    fun p hp => List.getElem?_set_ne (fun he => hp he.symm)
  have hnew : ((h ++ [(⟨zerosLike o.data, false, none, none⟩ : Obj)]).set a
      { o with grad := some h.length })[h.length]? =
      some ⟨zerosLike o.data, false, none, none⟩ := by
    rw [hother h.length (by omega), List.getElem?_concat_length]
  have hold : ∀ p, p < h.length → p ≠ a →
      ((h ++ [(⟨zerosLike o.data, false, none, none⟩ : Obj)]).set a
        { o with grad := some h.length })[p]? = h[p]? := by
    intro p hp hpa
    rw [hother p hpa, List.getElem?_append_left hp]
  have hstab : stable h ((h ++ [(⟨zerosLike o.data, false, none, none⟩ : Obj)]).set a
      { o with grad := some h.length }) := by
    refine ⟨by omega, ?_⟩
    intro p o' hp
    by_cases hpa : p = a
    · subst hpa
      rw [ha] at hp
      cases hp
      exact ⟨{ o with grad := some h.length }, hga, rfl, rfl, rfl⟩
    · exact ⟨o', by rw [hold p (getElem?_some_lt hp) hpa]; exact hp, rfl, rfl, rfl⟩
  refine ⟨rfl, hga, hnew, hold, hlen, hstab, ?_⟩
  intro hwf i hi dp hdp
  rw [hlen] at hi
  rw [hlen]
  rcases Nat.lt_trichotomy i h.length with hlt | heq | hgt
  · rw [depsOf_congr hstab i hlt] at hdp
    exact Nat.lt_succ_of_lt (hwf i hlt dp hdp)
  · subst heq
    rw [depsOf_of_get _ _ _ hnew] at hdp
    simp at hdp
  · omega

theorem gradData_of (h' : Heap) (a g' : Nat) (od : NDArray) (rg : Bool)
    (odeps : Option (List Dep)) (og' : Obj)
    (h1 : h'[a]? = some ⟨od, rg, some g', odeps⟩) (h2 : h'[g']? = some og') :
    gradData h' a = some og'.data := by
  unfold gradData
  rw [h1]
  dsimp only
  rw [h2]

set_option maxHeartbeats 1000000 in
/-- C8: on a differentiable tensor, `zero_grad()` installs a freshly
allocated all-zeros tensor of the tensor's own shape in the grad slot — a
new address, distinct from the previous grad tensor's, whose object is left
untouched — it modifies no field of any other tensor, and a backward pass
run after zeroing produces the same gradient values as the same pass run on
a freshly constructed tensor with the same buffer. -/
theorem zero_grad_fresh_and_isolated (h : Heap) (a : Nat) (o : Obj)
    (fuel : Nat) (S : NDArray) (g0 : Nat)
    (hwf : WF h)
    (ha : h[a]? = some o) (hrg : o.requires_grad = true)
    (hg0 : o.grad = some g0) (hg0lt : g0 < h.length) (hg0ne : g0 ≠ a)
    (hsafe : ∀ d ∈ o.depends_on.getD [], a ∉ reachL fuel h d.inputs)
    (hS : S.shape = o.data.shape) :
    (zeroGrad h a).2 = true ∧
    (zeroGrad h a).1[a]? = some { o with grad := some h.length } ∧
    (zeroGrad h a).1[h.length]? =
      some ⟨zerosLike o.data, false, none, none⟩ ∧
    h.length ≠ g0 ∧
    (zeroGrad h a).1[g0]? = h[g0]? ∧
    (∀ p, p < h.length → p ≠ a → (zeroGrad h a).1[p]? = h[p]?) ∧
    gradData (backward (fuel + 1) (newT (zeroGrad h a).1 S false none).1 a
        (some (zeroGrad h a).1.length)).1 a =
      gradData (backward (fuel + 1)
        (newT (newT [] o.data true none).1 S false none).1 0 (some 2)).1 0 ∧
    gradData (backward (fuel + 1) (newT (zeroGrad h a).1 S false none).1 a
        (some (zeroGrad h a).1.length)).1 a =
      some ⟨o.data.shape,
        List.zipWith addI (List.replicate o.data.data.length 0) S.data⟩ := by
  obtain ⟨od, org, ogr, odeps⟩ := o
  have horg : org = true := hrg
  subst horg
  have hogr : ogr = some g0 := hg0
  subst hogr
  have halt : a < h.length := getElem?_some_lt ha
  have hzf := zeroGrad_frame h a ⟨od, true, some g0, odeps⟩ ha rfl
  obtain ⟨hz2, hza, hznew, hzold, hzlen, hzstab, hzwf⟩ := hzf
  have hfresh : h.length ≠ g0 := by omega
  -- the zeroed-then-backward side
  have hsb2 : sameBelow (zeroGrad h a).1 (newT (zeroGrad h a).1 S false none).1 :=
    newT_sameBelow _ S false none
  have hwf2 : WF (newT (zeroGrad h a).1 S false none).1 :=
    WF_newT _ S false none (hzwf hwf) (by intro dp hdp; simp at hdp)
  have hga2 : (newT (zeroGrad h a).1 S false none).1[a]? =
      some ⟨od, true, some h.length, odeps⟩ := by
    rw [hsb2.2 a (by omega)]
    exact hza
  have hgg2 : (newT (zeroGrad h a).1 S false none).1[h.length]? =
      some ⟨zerosLike od, false, none, none⟩ := by
    rw [hsb2.2 h.length (by omega)]
    exact hznew
  have hgs2 : (newT (zeroGrad h a).1 S false none).1[(zeroGrad h a).1.length]? =
      some ⟨S, false, none, none⟩ := by
    have := newT_get_self (zeroGrad h a).1 S false none
    simpa using this
  have hstabh2 : stable h (newT (zeroGrad h a).1 S false none).1 :=
    stable_trans hzstab hsb2.toStable
  have hdeps_a : depsOf h a = odeps.getD [] := by
    rw [depsOf_of_get h a _ ha]
  have hsafe2 : ∀ d ∈ odeps.getD [],
      a ∉ reachL fuel (newT (zeroGrad h a).1 S false none).1 d.inputs ∧
      h.length ∉ reachL fuel (newT (zeroGrad h a).1 S false none).1 d.inputs := by
    intro d hd
    have hdin : d.inputs < h.length :=
      hwf a halt d (by rw [hdeps_a]; exact hd)
    have hre : reachL fuel (newT (zeroGrad h a).1 S false none).1 d.inputs =
        reachL fuel h d.inputs :=
      reachL_congr fuel h.length
        (fun q hq => depsOf_congr hstabh2 q hq) hwf d.inputs hdin
    rw [hre]
    refine ⟨hsafe d hd, ?_⟩
    intro hmem
    have := reachL_lt fuel h.length hwf d.inputs hdin _ hmem
    omega
  obtain ⟨g', og', hA, hG, hD, hglen, _, _⟩ :=
    backward_accum_step fuel (newT (zeroGrad h a).1 S false none).1 a
      (some (zeroGrad h a).1.length) od h.length
      ⟨zerosLike od, false, none, none⟩ odeps S.data hwf2 hga2 hgg2 rfl hsafe2
      ⟨⟨S, false, none, none⟩, hgs2, hS, rfl⟩
  have hval1 : gradData (backward (fuel + 1)
      (newT (zeroGrad h a).1 S false none).1 a
      (some (zeroGrad h a).1.length)).1 a = some og'.data :=
    gradData_of _ a g' od true odeps og' hA hG
  -- the freshly-constructed side
  have hwfF : WF (newT (newT [] od true none).1 S false none).1 := by
    intro i hi dp hdp
    rcases i with _ | _ | _ | i
    · rw [depsOf_of_get _ _ _ (by rfl : (newT (newT [] od true none).1 S false
        none).1[0]? = some ⟨od, true, some 1, none⟩)] at hdp
      simp at hdp
    · rw [depsOf_of_get _ _ _ (by rfl : (newT (newT [] od true none).1 S false
        none).1[1]? = some ⟨zerosLike od, false, none, none⟩)] at hdp
      simp at hdp
    · rw [depsOf_of_get _ _ _ (by rfl : (newT (newT [] od true none).1 S false
        none).1[2]? = some ⟨S, false, none, none⟩)] at hdp
      simp at hdp
    · rw [depsOf_ge _ _ (by
        have : (newT (newT [] od true none).1 S false none).1.length = 3 := rfl
        omega)] at hdp
      simp at hdp
  obtain ⟨gF, ogF, hAF, hGF, hDF, _, _, _⟩ :=
    backward_accum_step fuel (newT (newT [] od true none).1 S false none).1 0
      (some 2) od 1 ⟨zerosLike od, false, none, none⟩ none S.data hwfF rfl rfl
      rfl (by intro d hd; simp at hd) ⟨⟨S, false, none, none⟩, rfl, hS, rfl⟩
  have hval2 : gradData (backward (fuel + 1)
      (newT (newT [] od true none).1 S false none).1 0 (some 2)).1 0 =
        some ogF.data :=
    gradData_of _ 0 gF od true none ogF hAF hGF
  refine ⟨hz2, hza, hznew, hfresh, hzold g0 hg0lt hg0ne, hzold, ?_, ?_⟩
  · rw [hval1, hval2, hD, hDF]
  · rw [hval1, hD]
    rfl

/-- Witness for C8: a leaf of shape (2,) with buffer [5, 7]; after zeroing,
a backward pass seeded with [3, 4] matches the same pass on a fresh tensor. -/
theorem zero_grad_fresh_and_isolated_witness :
    (zeroGrad [(⟨⟨[2], [5, 7]⟩, true, some 1, none⟩ : Obj),
        ⟨⟨[2], [0, 0]⟩, false, none, none⟩] 0).2 = true ∧
    (zeroGrad [(⟨⟨[2], [5, 7]⟩, true, some 1, none⟩ : Obj),
        ⟨⟨[2], [0, 0]⟩, false, none, none⟩] 0).1[0]? =
      some ⟨⟨[2], [5, 7]⟩, true, some 2, none⟩ ∧
    (zeroGrad [(⟨⟨[2], [5, 7]⟩, true, some 1, none⟩ : Obj),
        ⟨⟨[2], [0, 0]⟩, false, none, none⟩] 0).1[2]? =
      some ⟨⟨[2], [0, 0]⟩, false, none, none⟩ ∧
    (2 : Nat) ≠ 1 ∧
    (zeroGrad [(⟨⟨[2], [5, 7]⟩, true, some 1, none⟩ : Obj),
        ⟨⟨[2], [0, 0]⟩, false, none, none⟩] 0).1[1]? =
      [(⟨⟨[2], [5, 7]⟩, true, some 1, none⟩ : Obj),
        ⟨⟨[2], [0, 0]⟩, false, none, none⟩][1]? ∧
    (∀ p, p < 2 → p ≠ 0 →
      (zeroGrad [(⟨⟨[2], [5, 7]⟩, true, some 1, none⟩ : Obj),
        ⟨⟨[2], [0, 0]⟩, false, none, none⟩] 0).1[p]? =
      [(⟨⟨[2], [5, 7]⟩, true, some 1, none⟩ : Obj),
        ⟨⟨[2], [0, 0]⟩, false, none, none⟩][p]?) ∧
    gradData (backward (1 + 1)
        (newT (zeroGrad [(⟨⟨[2], [5, 7]⟩, true, some 1, none⟩ : Obj),
          ⟨⟨[2], [0, 0]⟩, false, none, none⟩] 0).1 ⟨[2], [3, 4]⟩ false none).1 0
        (some (zeroGrad [(⟨⟨[2], [5, 7]⟩, true, some 1, none⟩ : Obj),
          ⟨⟨[2], [0, 0]⟩, false, none, none⟩] 0).1.length)).1 0 =
      gradData (backward (1 + 1)
        (newT (newT [] ⟨[2], [5, 7]⟩ true none).1 ⟨[2], [3, 4]⟩ false none).1 0
        (some 2)).1 0 ∧
    gradData (backward (1 + 1)
        (newT (zeroGrad [(⟨⟨[2], [5, 7]⟩, true, some 1, none⟩ : Obj),
          ⟨⟨[2], [0, 0]⟩, false, none, none⟩] 0).1 ⟨[2], [3, 4]⟩ false none).1 0
        (some (zeroGrad [(⟨⟨[2], [5, 7]⟩, true, some 1, none⟩ : Obj),
          ⟨⟨[2], [0, 0]⟩, false, none, none⟩] 0).1.length)).1 0 =
      some ⟨[2], List.zipWith addI (List.replicate 2 0) [3, 4]⟩ :=
  zero_grad_fresh_and_isolated
    [(⟨⟨[2], [5, 7]⟩, true, some 1, none⟩ : Obj),
      ⟨⟨[2], [0, 0]⟩, false, none, none⟩] 0
    ⟨⟨[2], [5, 7]⟩, true, some 1, none⟩ 1 ⟨[2], [3, 4]⟩ 1
    (by decide) rfl rfl rfl (by decide) (by decide)
    (by intro d hd; simp at hd) rfl
